import Mathlib

/-!
# Verification of the invoice reconciliation engine (program-conta)

Shallow embedding of the record-reconciliation and fuzzy-matching engine:

* `src/lib/comparison-logic.ts` — fixed-schema two-phase matcher
  (`ComparisonLogic.compareRecords` and its helpers), and
* `src/app/page.tsx` — generic-mode greedy matcher (`performComparison`,
  `valuesMatch`, `calculateSimilarity`, `normalizeString`).

Modelling conventions:

* JavaScript strings are Lean `String`s; character classes (`\s`, case
  conversion) are modelled with `Char.isWhitespace` / `Char.toLower` /
  `Char.toUpper` (ASCII-faithful, which covers the engine's data).
* JavaScript `number` is modelled by `ℚ` with exact arithmetic;
  `parseFloat` is modelled by an explicit prefix parser returning
  `Option ℚ` (`none` plays the role of `NaN`).  Binary-float rounding
  noise and the `Infinity` literal are outside the model.
* `new Date(s)` is modelled by an explicit parser over the formats that
  reach it in this program (ISO `YYYY-MM-DD`, and the legacy
  month-first `M/D/YYYY`-style numeric forms with `/`, `.` or `-`
  separators, including V8's `YYYY/MM/DD` variant); legacy forms are
  interpreted in *local* time, so the whole date pipeline is
  parameterised by a timezone offset `tz` (minutes east of UTC).
* JavaScript `Map`/`Set` keyed by object identity are modelled by list
  indices (a `Finset ℕ` of consumed positions), and `Map.set`'s
  last-write-wins by looking an exact key up from the *reversed*
  enumerated list.
-/

namespace Conta

/-! ## Kernel-evaluable rational arithmetic

The bundled `ℚ` operations (`Rat.add`, `Rat.mul`, …) are irreducible to
the kernel, so the engine is embedded with explicit cross-multiplication
arithmetic built on `Rat.divInt`, which does evaluate.  The lemmas right
after the definitions prove each primitive equal to the corresponding
`ℚ` operation, so every theorem is stated and proved over ordinary `ℚ`
arithmetic. -/

def ratAdd (a b : ℚ) : ℚ := Rat.divInt (a.num * b.den + b.num * a.den) (a.den * b.den)

def ratSub (a b : ℚ) : ℚ := Rat.divInt (a.num * b.den - b.num * a.den) (a.den * b.den)

def ratMul (a b : ℚ) : ℚ := Rat.divInt (a.num * b.num) (a.den * b.den)

def ratDiv (a b : ℚ) : ℚ := Rat.divInt (a.num * b.den) (b.num * a.den)

def ratLt (a b : ℚ) : Bool := decide (a.num * b.den < b.num * a.den)

def ratLe (a b : ℚ) : Bool := decide (a.num * b.den ≤ b.num * a.den)

def ratAbs (a : ℚ) : ℚ := if a.num < 0 then -a else a

def ratMax (a b : ℚ) : ℚ := if ratLe a b then b else a

theorem den_cast_nz (a : ℚ) : ((a.den : ℚ)) ≠ 0 := by
  exact_mod_cast a.den_ne_zero

theorem ratAdd_eq (a b : ℚ) : ratAdd a b = a + b := by
  rw [ratAdd, Rat.divInt_eq_div]
  conv_rhs => rw [← Rat.num_div_den a, ← Rat.num_div_den b]
  push_cast
  rw [div_add_div _ _ (den_cast_nz a) (den_cast_nz b)]
  ring_nf

theorem ratSub_eq (a b : ℚ) : ratSub a b = a - b := by
  rw [ratSub, Rat.divInt_eq_div]
  conv_rhs => rw [← Rat.num_div_den a, ← Rat.num_div_den b]
  push_cast
  rw [div_sub_div _ _ (den_cast_nz a) (den_cast_nz b)]
  ring_nf

theorem ratMul_eq (a b : ℚ) : ratMul a b = a * b := by
  rw [ratMul, Rat.divInt_eq_div]
  conv_rhs => rw [← Rat.num_div_den a, ← Rat.num_div_den b]
  push_cast
  rw [div_mul_div_comm]

theorem ratDiv_eq (a b : ℚ) : ratDiv a b = a / b := by
  rcases eq_or_ne b 0 with hb | hb
  · subst hb
    simp [ratDiv, Rat.divInt_eq_div]
  · have hbn : ((b.num : ℚ)) ≠ 0 := by
      exact_mod_cast Rat.num_ne_zero.mpr hb
    have ha := den_cast_nz a
    have hbd := den_cast_nz b
    rw [ratDiv, Rat.divInt_eq_div]
    conv_rhs => rw [← Rat.num_div_den a, ← Rat.num_div_den b]
    push_cast
    field_simp
    ring_nf
    simp

theorem ratLt_iff (a b : ℚ) : ratLt a b = true ↔ a < b := by
  rw [ratLt, decide_eq_true_iff]
  have ha : (0 : ℚ) < a.den := by exact_mod_cast a.pos
  have hb : (0 : ℚ) < b.den := by exact_mod_cast b.pos
  conv_rhs => rw [← Rat.num_div_den a, ← Rat.num_div_den b]
  rw [div_lt_div_iff₀ ha hb]
  constructor <;> intro h <;> exact_mod_cast h

theorem ratLe_iff (a b : ℚ) : ratLe a b = true ↔ a ≤ b := by
  rw [ratLe, decide_eq_true_iff]
  have ha : (0 : ℚ) < a.den := by exact_mod_cast a.pos
  have hb : (0 : ℚ) < b.den := by exact_mod_cast b.pos
  conv_rhs => rw [← Rat.num_div_den a, ← Rat.num_div_den b]
  rw [div_le_div_iff₀ ha hb]
  constructor <;> intro h <;> exact_mod_cast h

theorem ratLt_iff_false (a b : ℚ) : ratLt a b = false ↔ b ≤ a := by
  rw [← Bool.not_eq_true, ratLt_iff, not_lt]

theorem ratLe_iff_false (a b : ℚ) : ratLe a b = false ↔ b < a := by
  rw [← Bool.not_eq_true, ratLe_iff, not_le]

theorem ratAbs_eq (a : ℚ) : ratAbs a = |a| := by
  rw [ratAbs]
  by_cases h : a.num < 0
  · have hneg : a < 0 := by
      by_contra hc
      push_neg at hc
      exact absurd (Rat.num_nonneg.mpr hc) (not_le.mpr h)
    rw [if_pos h, abs_of_neg hneg]
  · have hpos : 0 ≤ a := Rat.num_nonneg.mp (not_lt.mp h)
    rw [if_neg h, abs_of_nonneg hpos]

theorem ratMax_eq (a b : ℚ) : ratMax a b = max a b := by
  rw [ratMax]
  by_cases h : a ≤ b
  · rw [if_pos ((ratLe_iff a b).mpr h), max_eq_right h]
  · rw [if_neg (fun hc => h ((ratLe_iff a b).mp hc)),
      max_eq_left (le_of_not_le h)]

/-! ## JavaScript string primitives -/

/-- `s.toLowerCase()` (ASCII model). -/
def jsToLower (s : String) : String := String.mk (s.data.map Char.toLower)

/-- `s.toUpperCase()` (ASCII model). -/
def jsToUpper (s : String) : String := String.mk (s.data.map Char.toUpper)

/-- `s.trim()` (structural implementation over the character list). -/
def jsTrim (s : String) : String :=
  String.mk
    (((s.data.dropWhile Char.isWhitespace).reverse.dropWhile
      Char.isWhitespace).reverse)

/-- `s.replace(/\s+/g, '')` — remove every whitespace character. -/
def stripAllWhitespace (s : String) : String :=
  String.mk (s.data.filter (fun c => !c.isWhitespace))

/-- `s.replace(/\./g, '')` — remove every dot. -/
def stripDots (s : String) : String :=
  String.mk (s.data.filter (fun c => c ≠ '.'))

/-- Worker for `replace(/\s+/g, ' ')`: the flag records whether the
previous character was whitespace (i.e. we are inside a run that has
already emitted its single space). -/
def collapseWsGo : Bool → List Char → List Char
  | _, [] => []
  | prevWs, c :: r =>
    if c.isWhitespace then
      if prevWs then collapseWsGo true r
      else ' ' :: collapseWsGo true r
    else c :: collapseWsGo false r

/-- `s.replace(/\s+/g, ' ')` — collapse each whitespace run to one space. -/
def collapseWhitespace (s : String) : String :=
  String.mk (collapseWsGo false s.data)

/-- Whether the char list `pat` occurs contiguously inside `l`
(`String.prototype.includes`). -/
def listContains (l pat : List Char) : Bool :=
  (l.tails).any (fun t => pat.isPrefixOf t)

/-- `s.includes(pat)`. -/
def jsIncludes (s pat : String) : Bool := listContains s.data pat.data

/-- `s.padStart(2, '0')`. -/
def padStart2 (s : String) : String :=
  if s.length ≥ 2 then s else
  if s.length = 1 then "0" ++ s else "00" ++ s

/-! ## JavaScript number primitives -/

/-- Numeric value of a digit list (most significant first). -/
def digitsVal (l : List Char) : ℕ :=
  l.foldl (fun a c => 10 * a + (c.toNat - 48)) 0

/-- `parseFloat` (model): skip leading whitespace, optional sign, decimal
digits with optional fraction and exponent, parsed as a *prefix* (trailing
junk ignored, exactly as `parseFloat("3abc") = 3`).  Returns `none` where
JavaScript returns `NaN`.  The `Infinity` literal and double rounding are
outside the model. -/
def jsParseFloat (s : String) : Option ℚ :=
  let l := s.data.dropWhile Char.isWhitespace
  let sgn : ℤ := match l with
    | '-' :: _ => -1
    | _ => 1
  let l := match l with
    | '-' :: r => r
    | '+' :: r => r
    | _ => l
  let ip := l.takeWhile Char.isDigit
  let l := l.dropWhile Char.isDigit
  let fp := match l with
    | '.' :: r => r.takeWhile Char.isDigit
    | _ => []
  let rest := match l with
    | '.' :: r => r.dropWhile Char.isDigit
    | _ => l
  if ip = [] ∧ fp = [] then none
  else
    -- value = sgn · (ipDigits.fpDigits) · 10^ex, as one exact fraction
    let mant : ℤ := digitsVal ip * 10 ^ fp.length + digitsVal fp
    let ex : ℤ := match rest with
      | c :: r =>
        if c = 'e' ∨ c = 'E' then
          let es : ℤ := match r with
            | '-' :: _ => -1
            | _ => 1
          let r2 := match r with
            | '-' :: t => t
            | '+' :: t => t
            | _ => r
          let ed := r2.takeWhile Char.isDigit
          if ed = [] then 0 else es * (digitsVal ed : ℤ)
        else 0
      | [] => 0
    some (Rat.divInt
      (sgn * mant * (if 0 ≤ ex then 10 ^ ex.toNat else 1))
      ((10 : ℤ) ^ fp.length * (if 0 ≤ ex then 1 else 10 ^ (-ex).toNat)))

/-- `str.replace(',', '.')` — JavaScript string-pattern `replace` rewrites
only the *first* occurrence. -/
def replaceFirstComma : List Char → List Char
  | [] => []
  | ',' :: r => '.' :: r
  | c :: r => c :: replaceFirstComma r

/-! ## comparison-logic.ts : scalar normalizers -/

/-- `ComparisonLogic.normalizeNumber`. -/
def normalizeNumber (numStr : String) : ℚ :=
  if numStr = "" then 0
  else
    let cleaned := String.mk (replaceFirstComma (jsTrim numStr).data)
    match jsParseFloat cleaned with
    | some q => q
    | none => 0

/-- `ComparisonLogic.numbersMatch` — `Math.abs(n1 - n2) < 0.01`. -/
def numbersMatch (num1 num2 : String) : Bool :=
  ratLt (ratAbs (ratSub (normalizeNumber num1) (normalizeNumber num2)))
    (Rat.divInt 1 100)

/-- `ComparisonLogic.normalizeCIF`. -/
def normalizeCIF (cif : String) : String :=
  stripAllWhitespace (jsToUpper (jsTrim cif))

/-- `ComparisonLogic.cifsMatch`. -/
def cifsMatch (cif1 cif2 : String) : Bool :=
  normalizeCIF cif1 == normalizeCIF cif2

/-- `ComparisonLogic.normalizeInvoiceNumber`. -/
def normalizeInvoiceNumber (invoice : String) : String :=
  stripAllWhitespace (jsToUpper (jsTrim invoice))

/-- `ComparisonLogic.createRecordKey`. -/
def createRecordKey (cif nrFactur : String) : String :=
  jsToUpper (jsTrim cif) ++ "|" ++ jsToUpper (jsTrim nrFactur)

/-- `ComparisonLogic.normalizeCompanyName`. -/
def normalizeCompanyName (name : String) : String :=
  jsTrim (collapseWhitespace (stripDots (jsToLower (jsTrim name))))

/-! ## Calendar-date arithmetic (model of the JS `Date` internals)

Civil-calendar conversions (Gregorian, proleptic) between `(year, month,
day)` and days since the Unix epoch; used to model `Date.getTime()` and
`Date.toISOString()`.  The model covers years `≥ 1`, which includes every
date this program can construct. -/

def isLeap (y : ℕ) : Bool := (y % 4 == 0 && y % 100 != 0) || y % 400 == 0

def daysInMonth (y m : ℕ) : ℕ :=
  if m = 2 then (if isLeap y then 29 else 28)
  else if m = 4 ∨ m = 6 ∨ m = 9 ∨ m = 11 then 30 else 31

/-- Days since 1970-01-01 of the civil date `(y, m, d)` (for `y ≥ 1`). -/
def daysFromCivil (y m d : ℕ) : ℤ :=
  let y' := if m ≤ 2 then y - 1 else y
  let era := y' / 400
  let yoe := y' % 400
  let mp := if m > 2 then m - 3 else m + 9
  let doy := (153 * mp + 2) / 5 + d - 1
  let doe := yoe * 365 + yoe / 4 - yoe / 100 + doy
  (era * 146097 + doe : ℤ) - 719468

/-- Civil date of a day count since 1970-01-01 (for dates from year 1 on). -/
def civilFromDays (z : ℤ) : ℕ × ℕ × ℕ :=
  let n := (z + 719468).toNat
  let era := n / 146097
  let doe := n % 146097
  let yoe := (doe - doe / 1460 + doe / 36524 - doe / 146096) / 365
  let y := yoe + era * 400
  let doy := doe - (365 * yoe + yoe / 4 - yoe / 100)
  let mp := (5 * doy + 2) / 153
  let d := doy - (153 * mp + 2) / 5 + 1
  let m := if mp < 10 then mp + 3 else mp - 9
  (if m ≤ 2 then y + 1 else y, m, d)

/-! ## Model of `new Date(string)` parsing

The strings fed to `new Date` in this program are: the raw date cells
(for `normalizeDate`) and `normalizeDate`'s own output (for the phase-2
day-difference score).  The model covers the numeric formats the V8
engine accepts there: the ISO calendar date `YYYY-MM-DD` (interpreted at
*UTC* midnight) and the legacy month-first numeric forms `M/D/YYYY` and
`YYYY/M/D` with `/`, `.` or `-` separators (interpreted at *local*
midnight, day-of-month rolling over into the next month when it exceeds
the month length, exactly as the `Date` constructor rolls fields).  All
other strings are Invalid Date (`none`). -/

def allDigits (l : List Char) : Bool := l.all Char.isDigit

/-- `s.split(/[\/\.-]/)` — split at every single `/`, `.` or `-`,
keeping empty components. -/
def splitOnSeps : List Char → List (List Char)
  | [] => [[]]
  | c :: r =>
    if c = '/' ∨ c = '.' ∨ c = '-' then [] :: splitOnSeps r
    else
      match splitOnSeps r with
      | [] => [[c]]
      | h :: t => (c :: h) :: t

/-- ISO `YYYY-MM-DD` with a real calendar validity check (the ECMA-262
ISO parser rejects out-of-range components). -/
def parseISODate (l : List Char) : Option (ℕ × ℕ × ℕ) :=
  match l with
  | [a, b, c, d, '-', e, f, '-', g, h] =>
    if allDigits [a, b, c, d, e, f, g, h] then
      let y := digitsVal [a, b, c, d]
      let m := digitsVal [e, f]
      let dd := digitsVal [g, h]
      if 1 ≤ m ∧ m ≤ 12 ∧ 1 ≤ dd ∧ dd ≤ daysInMonth y m then some (y, m, dd)
      else none
    else none
  | _ => none

/-- Legacy numeric date forms accepted by the V8 fallback parser:
month-first `M/D/YYYY` (1–2 digit month `1..12`, 1–2 digit day `1..31`,
4-digit year) and `YYYY/M/D`; separators `/`, `.` or `-`.  Returns
`(y, m, d)` with `d` possibly overflowing the month (rolled over by the
caller). -/
def parseLegacyDate (l : List Char) : Option (ℕ × ℕ × ℕ) :=
  match splitOnSeps l with
  | [p1, p2, p3] =>
    if allDigits p1 && allDigits p2 && allDigits p3 &&
        !p1.isEmpty && !p2.isEmpty && !p3.isEmpty then
      if p1.length ≤ 2 && p2.length ≤ 2 && p3.length = 4 then
        let m := digitsVal p1
        let d := digitsVal p2
        let y := digitsVal p3
        if 1 ≤ m ∧ m ≤ 12 ∧ 1 ≤ d ∧ d ≤ 31 ∧ 1000 ≤ y then some (y, m, d)
        else none
      else if p1.length = 4 && p2.length ≤ 2 && p3.length ≤ 2 then
        let y := digitsVal p1
        let m := digitsVal p2
        let d := digitsVal p3
        if 1 ≤ m ∧ m ≤ 12 ∧ 1 ≤ d ∧ d ≤ 31 ∧ 1000 ≤ y then some (y, m, d)
        else none
      else none
    else none
  | _ => none

/-- `new Date(s).getTime()` in *minutes* since the epoch (`none` =
Invalid Date).  `tz` is the system timezone offset in minutes east of
UTC: ISO dates are UTC midnight, legacy dates are local midnight. -/
def jsDateParse (tz : ℤ) (s : String) : Option ℤ :=
  let l := (jsTrim s).data
  match parseISODate l with
  | some (y, m, d) => some (daysFromCivil y m d * 1440)
  | none =>
    match parseLegacyDate l with
    | some (y, m, d) => some ((daysFromCivil y m 1 + ((d : ℤ) - 1)) * 1440 - tz)
    | none => none

def pad2Nat (n : ℕ) : String := if n < 10 then "0" ++ toString n else toString n

/-- `date.toISOString().split('T')[0]` from a timestamp in minutes. -/
def tsToISODate (ts : ℤ) : String :=
  let day := Int.fdiv ts 1440
  let c := civilFromDays day
  toString c.1 ++ "-" ++ pad2Nat c.2.1 ++ "-" ++ pad2Nat c.2.2

/-- `ComparisonLogic.normalizeDate`, parameterised by the system
timezone offset `tz` that the underlying `new Date` call observes. -/
def normalizeDate (tz : ℤ) (dateStr : String) : String :=
  if dateStr = "" then ""
  else
    match jsDateParse tz dateStr with
    | some ts => tsToISODate ts
    | none =>
      match splitOnSeps dateStr.data with
      | [pd, pm, py] =>
        String.mk py ++ "-" ++ padStart2 (String.mk pm) ++ "-" ++
          padStart2 (String.mk pd)
      | _ => jsTrim dateStr

/-- `ComparisonLogic.datesMatch`. -/
def datesMatch (tz : ℤ) (date1 date2 : String) : Bool :=
  normalizeDate tz date1 == normalizeDate tz date2

/-! ## comparison-logic.ts : company-name matching -/

/-- The fixed stop-word list of `flexibleCompanyMatch`. -/
def stopWords : List String :=
  ["srl", "sa", "s.a.", "s.r.l.", "impex", "com", "prod", "serv", "grup",
   "group", "companie", "company", "institut", "institutul", "national",
   "nazionale", "de", "pentru", "si", "cu", "in", "la", "pe", "din", "prin",
   "dezvoltare", "cercetare", "-"]

/-- Separator class of `split(/[\s\-]+/)`. -/
def isSepWH (c : Char) : Bool := c.isWhitespace || c = '-'

/-- Worker for `split(/[\s\-]+/)`: `acc` is the current token, reversed. -/
def splitWsHyphenGo : List Char → List Char → List (List Char)
  | acc, [] => if acc.isEmpty then [] else [acc.reverse]
  | acc, c :: r =>
    if isSepWH c then
      if acc.isEmpty then splitWsHyphenGo [] r
      else acc.reverse :: splitWsHyphenGo [] r
    else splitWsHyphenGo (c :: acc) r

/-- `name.split(/[\s\-]+/)` — split on runs of whitespace or hyphen.
JavaScript's regex split can yield empty boundary tokens; those are
removed here instead, and `extractKeyWords` drops every token of length
`≤ 2` anyway, so the two readings coincide after filtering. -/
def splitWsHyphen (l : List Char) : List (List Char) :=
  splitWsHyphenGo [] l

/-- The `extractKeyWords` closure inside `flexibleCompanyMatch`. -/
def extractKeyWords (name : String) : List String :=
  ((splitWsHyphen name.data).map String.mk).filter
    (fun w => w.length > 2 && !(stopWords.contains w) && w ≠ "")

/-- One key word counts as found when some word of the longer list
contains it or is contained in it (`longerWord.includes(word) ||
word.includes(longerWord)`). -/
def wordFound (longer : List String) (word : String) : Bool :=
  longer.any (fun lw => jsIncludes lw word || jsIncludes word lw)

/-- `ComparisonLogic.flexibleCompanyMatch`. -/
def flexibleCompanyMatch (name1 name2 : String) : Bool :=
  let words1 := extractKeyWords name1
  let words2 := extractKeyWords name2
  if words1.length = 0 ∨ words2.length = 0 then false
  else
    let shorter := if words1.length ≤ words2.length then words1 else words2
    let longer := if words1.length ≤ words2.length then words2 else words1
    let minMatches := max 1 ((7 * shorter.length + 9) / 10)
    let found := (shorter.filter (wordFound longer)).length
    decide (found ≥ minMatches)

/-- `ComparisonLogic.stringsMatch`. -/
def stringsMatch (str1 str2 : String) : Bool :=
  let normalized1 := normalizeCompanyName str1
  let normalized2 := normalizeCompanyName str2
  if normalized1 == normalized2 then true
  else flexibleCompanyMatch normalized1 normalized2

/-! ## comparison-logic.ts : records, differences, classification -/

/-- The six-field invoice record shape shared by `ExcelInvoiceRecord`
and `ANAFInvoiceRecord` (all fields are raw strings). -/
structure InvoiceRecord where
  nrFactur : String
  dataEmitere : String
  denumireEmitent : String
  cifEmitent : String
  cotaTVA : String
  baza : String
deriving DecidableEq, Repr

/-- `ComparisonLogic.findDifferences` — the five field comparisons, each
contributing one human-readable description string. -/
def findDifferences (tz : ℤ) (e c : InvoiceRecord) : List String :=
  (if cifsMatch e.cifEmitent c.cifEmitent then [] else
    ["CIF: Excel=\"" ++ e.cifEmitent ++ "\" vs ANAF=\"" ++ c.cifEmitent ++ "\""]) ++
  (if datesMatch tz e.dataEmitere c.dataEmitere then [] else
    ["Data emitere: Excel=\"" ++ e.dataEmitere ++ "\" vs ANAF=\"" ++ c.dataEmitere ++ "\""]) ++
  (if stringsMatch e.denumireEmitent c.denumireEmitent then [] else
    ["Denumire: Excel=\"" ++ e.denumireEmitent ++ "\" vs ANAF=\"" ++ c.denumireEmitent ++ "\""]) ++
  (if numbersMatch e.cotaTVA c.cotaTVA then [] else
    ["Cota TVA: Excel=\"" ++ e.cotaTVA ++ "\" vs ANAF=\"" ++ c.cotaTVA ++ "\""]) ++
  (if numbersMatch e.baza c.baza then [] else
    ["Baza TVA: Excel=\"" ++ e.baza ++ "\" vs ANAF=\"" ++ c.baza ++ "\""])

/-- `ComparisonLogic.isTransactionDifference` — every difference string
must *contain* (lower-cased) `"cif:"` or `"denumire:"`. -/
def isTransactionDifference (differences : List String) : Bool :=
  differences.all
    (fun diff => jsIncludes (jsToLower diff) "cif:" ||
                 jsIncludes (jsToLower diff) "denumire:") &&
  decide (differences.length > 0)

/-- Date component of `calculateMatchScore` (the first `score +=`
block): `+0.4` on normalized-date equality, else `+0.2` when the
day difference of the re-parsed normalized dates is at most 7. -/
def dateScorePart (tz : ℤ) (e c : InvoiceRecord) : ℚ :=
  if datesMatch tz e.dataEmitere c.dataEmitere then Rat.divInt 2 5
  else
    -- `new Date(normalizeDate(..))` on both sides; NaN (none) gives no bonus
    match jsDateParse tz (normalizeDate tz e.dataEmitere),
          jsDateParse tz (normalizeDate tz c.dataEmitere) with
    | some t1, some t2 =>
      -- daysDiff = |t1 - t2| / minutesPerDay;  daysDiff ≤ 7
      if ratLe (Rat.divInt ((t1 - t2).natAbs) 1440) 7 then Rat.divInt 1 5
      else 0
    | _, _ => 0

/-- Amount component of `calculateMatchScore`: `+0.4` within the 0.01
epsilon, else `+0.2` when `|a−b| / max(a,b) ≤ 0.05` (JS division by zero
gives `Infinity`, never `≤ 0.05`; hence the explicit zero guard). -/
def amountScorePart (e c : InvoiceRecord) : ℚ :=
  if numbersMatch e.baza c.baza then Rat.divInt 2 5
  else
    let a := normalizeNumber e.baza
    let b := normalizeNumber c.baza
    if ratMax a b = 0 then 0
    else if ratLe (ratDiv (ratAbs (ratSub a b)) (ratMax a b)) (Rat.divInt 1 20)
      then Rat.divInt 1 5
    else 0

/-- VAT-rate component of `calculateMatchScore`: `+0.2` on epsilon
equality. -/
def vatScorePart (e c : InvoiceRecord) : ℚ :=
  if numbersMatch e.cotaTVA c.cotaTVA then Rat.divInt 1 5 else 0

/-- `ComparisonLogic.calculateMatchScore` (exact rational score). -/
def calculateMatchScore (tz : ℤ) (e c : InvoiceRecord) : ℚ :=
  ratAdd (ratAdd (dateScorePart tz e c) (amountScorePart e c))
    (vatScorePart e c)

/-! ## comparison-logic.ts : `compareRecords`

JavaScript `Map`/`Set` keyed by object identity become list indices:
records are enumerated with their positions, consumed positions live in
`Finset ℕ`, and `Map.set`'s overwrite-on-duplicate becomes a lookup of
the *last* enumerated record with the queried key. -/

inductive MatchType where
  | exact
  | invoiceOnly
deriving DecidableEq, Repr

/-- A `MatchedRecord`, with the positions of both sides kept so that
bucket exhaustiveness can be stated. -/
structure MatchedRecord where
  excelIdx : ℕ
  csvIdx : ℕ
  excelRecord : InvoiceRecord
  csvRecord : InvoiceRecord
  differences : List String
  matchType : MatchType
deriving DecidableEq, Repr

/-- `ComparisonResult` (indices of the one-sided records kept). -/
structure ComparisonResult where
  missingFromCSV : List (ℕ × InvoiceRecord)
  missingFromExcel : List (ℕ × InvoiceRecord)
  valueDifferences : List MatchedRecord
  transactionDifferences : List MatchedRecord
  perfectMatches : List MatchedRecord
deriving DecidableEq, Repr

/-- Working state of `compareRecords`: the two consumed-sets and the
three matched buckets. -/
structure MState where
  pe : Finset ℕ
  pc : Finset ℕ
  perfect : List MatchedRecord
  trans : List MatchedRecord
  value : List MatchedRecord
deriving DecidableEq

def MState.init : MState := ⟨∅, ∅, [], [], []⟩

/-- `csvExactMap.get(key)` — the map was filled by `Map.set` in input
order, so a duplicate key holds the *last* record; hence the reversed
search. -/
def exactLookup (csv : List InvoiceRecord) (k : String) :
    Option (ℕ × InvoiceRecord) :=
  (csv.enum.reverse).find?
    (fun p => createRecordKey p.2.cifEmitent p.2.nrFactur == k)

/-- `csvInvoiceMap.get(key)` — all records with the normalized invoice
number, in input (push) order. -/
def invoiceCandidates (csv : List InvoiceRecord) (k : String) :
    List (ℕ × InvoiceRecord) :=
  csv.enum.filter (fun p => normalizeInvoiceNumber p.2.nrFactur == k)

/-- Route one matched pair into `perfectMatches`,
`transactionDifferences` or `valueDifferences`. -/
def classifyPush (s : MState) (pair : MatchedRecord) : MState :=
  if pair.differences.isEmpty then
    { s with perfect := s.perfect ++ [pair] }
  else if isTransactionDifference pair.differences then
    { s with trans := s.trans ++ [pair] }
  else
    { s with value := s.value ++ [pair] }

/-- Phase 1 body: exact composite-key match.  Note that the source does
*not* consult `processedCSV` here — a right record already consumed by
an earlier duplicate-key left record is matched again. -/
def phase1Step (tz : ℤ) (csv : List InvoiceRecord) (s : MState)
    (ie : ℕ × InvoiceRecord) : MState :=
  match exactLookup csv (createRecordKey ie.2.cifEmitent ie.2.nrFactur) with
  | none => s
  | some (j, c) =>
    let s' := { s with pe := insert ie.1 s.pe, pc := insert j s.pc }
    classifyPush s'
      { excelIdx := ie.1, csvIdx := j, excelRecord := ie.2, csvRecord := c,
        differences := findDifferences tz ie.2 c, matchType := .exact }

/-- One candidate of the phase-2 scan: skip consumed candidates, keep a
new candidate only on a *strictly* greater score. -/
def bcStep (tz : ℤ) (pc : Finset ℕ) (e : InvoiceRecord)
    (acc : Option (ℕ × InvoiceRecord) × ℚ) (jc : ℕ × InvoiceRecord) :
    Option (ℕ × InvoiceRecord) × ℚ :=
  if jc.1 ∈ pc then acc
  else
    let sc := calculateMatchScore tz e jc.2
    if ratLt acc.2 sc then (some jc, sc) else acc

/-- The phase-2 candidate scan: strict-improvement fold starting from
`(null, -1)`. -/
def bestCandidate (tz : ℤ) (pc : Finset ℕ) (e : InvoiceRecord)
    (cands : List (ℕ × InvoiceRecord)) :
    Option (ℕ × InvoiceRecord) × ℚ :=
  cands.foldl (bcStep tz pc e) (none, -1)

/-- Phase 2 body: invoice-number-only fallback for left records not yet
consumed; accepts the best candidate only above the `0.5` confidence
threshold. -/
def phase2Step (tz : ℤ) (csv : List InvoiceRecord) (s : MState)
    (ie : ℕ × InvoiceRecord) : MState :=
  if ie.1 ∈ s.pe then s
  else
    let cands := invoiceCandidates csv (normalizeInvoiceNumber ie.2.nrFactur)
    let best := bestCandidate tz s.pc ie.2 cands
    match best.1 with
    | none => s
    | some (j, c) =>
      if ratLt (Rat.divInt 1 2) best.2 then
        let s' := { s with pe := insert ie.1 s.pe, pc := insert j s.pc }
        classifyPush s'
          { excelIdx := ie.1, csvIdx := j, excelRecord := ie.2, csvRecord := c,
            differences := findDifferences tz ie.2 c,
            matchType := .invoiceOnly }
      else s

/-- `ComparisonLogic.compareRecords`. -/
def compareRecords (tz : ℤ) (excelRecords csvRecords : List InvoiceRecord) :
    ComparisonResult :=
  let s1 := excelRecords.enum.foldl (phase1Step tz csvRecords) MState.init
  let s2 := excelRecords.enum.foldl (phase2Step tz csvRecords) s1
  { missingFromCSV := excelRecords.enum.filter (fun p => p.1 ∉ s2.pe),
    missingFromExcel := csvRecords.enum.filter (fun p => p.1 ∉ s2.pc),
    valueDifferences := s2.value,
    transactionDifferences := s2.trans,
    perfectMatches := s2.perfect }

/-! ## page.tsx : generic mode

Rows are open string-keyed records, modelled as association lists
(`row[col] || ''` is lookup-with-empty-default).  `performComparison`
runs one greedy pass over the left rows; consumed right rows are the
`usedCsvIndices` set. -/

/-- `normalizeString` of page.tsx: trim, lowercase, collapse whitespace. -/
def normalizeString (str : String) : String :=
  collapseWhitespace (jsToLower (jsTrim str))

/-- The `calculateSimilarity` Levenshtein recurrence (the source fills a
DP matrix; this is the same recurrence, made structural through a fuel
argument that the wrapper instantiates large enough never to run out). -/
def levFuel : ℕ → List Char → List Char → ℕ
  | 0, s, t => s.length + t.length
  | _ + 1, [], t => t.length
  | _ + 1, s, [] => s.length
  | fuel + 1, a :: s, b :: t =>
    min (min (levFuel fuel (a :: s) t + 1) (levFuel fuel s (b :: t) + 1))
      (levFuel fuel s t + (if a = b then 0 else 1))

def levenshtein (s t : List Char) : ℕ := levFuel (s.length + t.length) s t

/-- `calculateSimilarity` of page.tsx. -/
def calculateSimilarity (str1 str2 : String) : ℚ :=
  if str1 = str2 then 1
  else if str1.length = 0 ∨ str2.length = 0 then 0
  else
    let maxLength := max str1.length str2.length
    Rat.divInt ((maxLength : ℤ) - levenshtein str1.data str2.data) maxLength

/-- `valuesMatch` of page.tsx. -/
def valuesMatch (val1 val2 : String) : Bool :=
  if val1 = "" && val2 = "" then true
  else if val1 = "" || val2 = "" then false
  else
    let norm1 := normalizeString val1
    let norm2 := normalizeString val2
    if norm1 == norm2 then true
    else if jsIncludes norm1 norm2 || jsIncludes norm2 norm1 then true
    else if (jsParseFloat norm1).isSome && (jsParseFloat norm2).isSome &&
        jsParseFloat norm1 == jsParseFloat norm2 then true
    else if norm1.length > 3 && norm2.length > 3 then
      ratLt (Rat.divInt 4 5) (calculateSimilarity norm1 norm2)
    else false

/-- A generic-mode row: open mapping from column name to string value
(`row[col] || ''`). -/
abbrev GenRow := List (String × String)

def rowGet (row : GenRow) (col : String) : String :=
  match row.find? (fun p => p.1 == col) with
  | some p => p.2
  | none => ""

/-- One user-declared column pair. -/
structure ColumnMapping where
  excel : String
  csv : String
deriving DecidableEq, Repr

/-- Per-candidate evaluation: the mapping loop collecting difference
strings and the count of matching fields. -/
def evalCandidate (mappings : List ColumnMapping) (erow crow : GenRow) :
    List String × ℕ :=
  (mappings.filterMap
    (fun m =>
      let ev := rowGet erow m.excel
      let cv := rowGet crow m.csv
      if valuesMatch ev cv then none
      else some (m.excel ++ " (" ++ ev ++ ") ≠ " ++ m.csv ++ " (" ++ cv ++ ")")),
   mappings.countP
    (fun m => valuesMatch (rowGet erow m.excel) (rowGet crow m.csv)))

/-- A candidate retained by the inner scan of `performComparison`. -/
structure BestGeneric where
  csvIndex : ℕ
  differences : List String
  csvRecord : GenRow
  score : ℚ
deriving DecidableEq

/-- One right-row of the generic scan: keep a candidate when its score
is `≥ 0.5` and it *strictly* beats the current best (so the earliest of
equal scores wins). -/
def fbgStep (mappings : List ColumnMapping) (used : Finset ℕ)
    (erow : GenRow) (acc : Option BestGeneric) (jc : ℕ × GenRow) :
    Option BestGeneric :=
  if jc.1 ∈ used then acc
  else
    let dc := evalCandidate mappings erow jc.2
    let score : ℚ := Rat.divInt dc.2 mappings.length
    if ratLe (Rat.divInt 1 2) score ∧ (∀ b ∈ acc, ratLt b.score score) then
      some ⟨jc.1, dc.1, jc.2, score⟩
    else acc

/-- The inner scan of `performComparison` over all right rows. -/
def findBestGeneric (mappings : List ColumnMapping) (used : Finset ℕ)
    (erow : GenRow) (csv : List GenRow) : Option BestGeneric :=
  csv.enum.foldl (fbgStep mappings used erow) none

/-- A matched generic pair (row projections omitted: the source stores
per-mapping projections of both rows, which no claim depends on). -/
structure GenericMatch where
  rowIndex : ℕ
  csvRowIndex : ℕ
  differences : List String
deriving DecidableEq

structure GenericResult where
  matchesList : List GenericMatch  -- source field name: `matches` (a Lean keyword)
  onlyInExcel : List ℕ
  onlyInCsv : List ℕ
deriving DecidableEq

/-- One left row of the greedy pass. -/
def genericStep (mappings : List ColumnMapping) (csv : List GenRow)
    (s : Finset ℕ × List GenericMatch × List ℕ) (ie : ℕ × GenRow) :
    Finset ℕ × List GenericMatch × List ℕ :=
  match findBestGeneric mappings s.1 ie.2 csv with
  | some b =>
    (insert b.csvIndex s.1,
     s.2.1 ++ [⟨ie.1, b.csvIndex, b.differences⟩], s.2.2)
  | none => (s.1, s.2.1, s.2.2 ++ [ie.1])

/-- `performComparison` of page.tsx. -/
def performComparison (mappings : List ColumnMapping)
    (excel csv : List GenRow) : GenericResult :=
  match mappings with
  | [] => ⟨[], [], []⟩
  | _ =>
    let s := excel.enum.foldl (genericStep mappings csv) (∅, [], [])
    { matchesList := s.2.1,
      onlyInExcel := s.2.2,
      onlyInCsv := (csv.enum.filter (fun p => p.1 ∉ s.1)).map Prod.fst }

/-! # Claims -/

/-! ## C10 — empty generic mapping list -/

/-- **C10**: in generic mode with an empty mapping list,
`performComparison` returns a result whose `matches`, `onlyInExcel` and
`onlyInCsv` buckets are all empty, for every pair of input row
sequences — no input row appears in any bucket, so the bucket-partition
property does not extend to the empty-mapping configuration. -/
theorem C10_empty_mapping_all_buckets_empty (excel csv : List GenRow) :
    performComparison [] excel csv = ⟨[], [], []⟩ := rfl

/-! ## C7 — numeric tolerance -/

/-- **C7**: two numeric field values are considered equal iff the
absolute difference of their normalized numbers is strictly below
`0.01`; in particular values differing by exactly `0.009` compare equal
and values differing by exactly `0.011` compare unequal. -/
theorem C7_numeric_tolerance :
    (∀ num1 num2, numbersMatch num1 num2 = true ↔
      |normalizeNumber num1 - normalizeNumber num2| < 1 / 100) ∧
    (∀ a b, |normalizeNumber a - normalizeNumber b| = 9 / 1000 →
      numbersMatch a b = true) ∧
    (∀ a b, |normalizeNumber a - normalizeNumber b| = 11 / 1000 →
      numbersMatch a b = false) := by
  refine ⟨fun n1 n2 => ?_, fun a b h => ?_, fun a b h => ?_⟩
  · rw [numbersMatch, ratLt_iff, ratAbs_eq, ratSub_eq, Rat.divInt_eq_div]
    norm_num
  · rw [numbersMatch, ratLt_iff, ratAbs_eq, ratSub_eq, Rat.divInt_eq_div, h]
    norm_num
  · rw [numbersMatch, ratLt_iff_false, ratAbs_eq, ratSub_eq,
      Rat.divInt_eq_div, h]
    norm_num

/-- Witness for C7 at the spec's own boundary values. -/
theorem C7_witness :
    numbersMatch "100.009" "100" = true ∧
    numbersMatch "100.011" "100" = false :=
  ⟨C7_numeric_tolerance.2.1 "100.009" "100" (by
      have h1 : normalizeNumber "100.009" = Rat.divInt 100009 1000 := by decide
      have h2 : normalizeNumber "100" = 100 := by decide
      rw [h1, h2, Rat.divInt_eq_div]
      norm_num),
   C7_numeric_tolerance.2.2 "100.011" "100" (by
      have h1 : normalizeNumber "100.011" = Rat.divInt 100011 1000 := by decide
      have h2 : normalizeNumber "100" = 100 := by decide
      rw [h1, h2, Rat.divInt_eq_div]
      norm_num)⟩

/-! ## C3 — date normalizer -/

/-- **C3, counterexample**: the claim says every day/month/year string
with `/` separators normalizes to `YYYY-MM-DD` with day and month in
their correct positions, independent of the system timezone.  On
`"12/05/2024"` (5 December in day/month/year reading) the engine's
native `Date` parse wins and reads it *month-first* in *local time*:
at UTC the result is `"2024-12-05"` (day and month swapped), and at
UTC+2 it is `"2024-12-04"` — a different string, so the result also
depends on the timezone offset. -/
theorem C3_counterexample :
    normalizeDate 0 "12/05/2024" = "2024-12-05" ∧
    normalizeDate 120 "12/05/2024" = "2024-12-04" ∧
    normalizeDate 0 "12/05/2024" ≠ "2024-05-12" ∧
    normalizeDate 120 "12/05/2024" ≠ normalizeDate 0 "12/05/2024" := by
  refine ⟨by decide, by decide, by decide, by decide⟩

/-- **C3, amended**: the date normalizer is total; a day/month/year
string (any `/`, `.`, `-` separators) on which the engine's *native
month-first parse fails* — e.g. the day field exceeds 12 — is rewritten
to `year-month-day` with day and month in their correct (padded)
positions; a non-empty input that neither parses natively nor splits
into exactly three parts normalizes to the trimmed original string (so
two identical unparsable strings normalize equal).  Strings the native
parser does accept are interpreted month-first in local time, so only
the fallback paths are locale/timezone-independent. -/
theorem C3_amended :
    (∀ (tz : ℤ) (s : String) (pd pm py : List Char), s ≠ "" →
      jsDateParse tz s = none → splitOnSeps s.data = [pd, pm, py] →
      normalizeDate tz s =
        String.mk py ++ "-" ++ padStart2 (String.mk pm) ++ "-" ++
          padStart2 (String.mk pd)) ∧
    (∀ (tz : ℤ) (s : String), s ≠ "" → jsDateParse tz s = none →
      (splitOnSeps s.data).length ≠ 3 → normalizeDate tz s = jsTrim s) := by
  constructor
  · intro tz s pd pm py hne hparse hsplit
    simp only [normalizeDate, hne, if_false, hparse, hsplit]
  · intro tz s hne hparse hsplit
    simp only [normalizeDate, hne, if_false, hparse]
    match h : splitOnSeps s.data with
    | [] => rfl
    | [_] => rfl
    | [_, _] => rfl
    | [_, _, _] => exact absurd (by rw [h]; rfl) hsplit
    | _ :: _ :: _ :: _ :: _ => rfl

/-- Witness for C3 at `"13/05/2024"` (day 13 defeats the native
month-first parse, so the fallback places day and month correctly) and
at the unparsable `"  abc  "`. -/
theorem C3_witness :
    normalizeDate 0 "13/05/2024" = "2024-05-13" ∧
    normalizeDate 0 "  abc  " = "abc" := by
  constructor
  · exact (C3_amended.1 0 "13/05/2024" ['1', '3'] ['0', '5']
      ['2', '0', '2', '4'] (by decide) (by decide) (by decide)).trans
      (by decide)
  · exact (C3_amended.2 0 "  abc  " (by decide) (by decide)
      (by decide)).trans (by decide)

/-! ## C5 — generic-mode field equality -/

theorem levFuel_self (l : List Char) : ∀ f, 2 * l.length ≤ f →
    levFuel f l l = 0 := by
  induction l with
  | nil =>
    intro f _
    cases f <;> rfl
  | cons a r ih =>
    intro f hf
    cases f with
    | zero =>
      simp only [List.length_cons] at hf
      omega
    | succ fuel =>
      have h2 : 2 * r.length ≤ fuel := by
        simp only [List.length_cons] at hf
        omega
      simp only [levFuel, ih fuel h2]
      simp only [if_true, eq_self_iff_true, Nat.add_zero]
      omega

theorem levenshtein_self (l : List Char) : levenshtein l l = 0 :=
  levFuel_self l _ (by omega)

theorem levenshtein_nil_left (t : List Char) : levenshtein [] t = t.length := by
  cases t <;> rfl

theorem levenshtein_nil_right (s : List Char) : levenshtein s [] = s.length := by
  cases s <;> rfl

/-- The spec's similarity formula, `1 − levenshtein/maxLen`, over two
already-normalized strings. -/
def specSimilarity (s1 s2 : String) : ℚ :=
  1 - (levenshtein s1.data s2.data : ℚ) / ((max s1.length s2.length : ℕ) : ℚ)

theorem string_data_length (s : String) : s.data.length = s.length := rfl

theorem string_data_eq_nil (s : String) (h : s.length = 0) : s.data = [] :=
  List.length_eq_zero.mp ((string_data_length s).trans h)

theorem calculateSimilarity_eq_spec (s1 s2 : String) :
    calculateSimilarity s1 s2 = specSimilarity s1 s2 := by
  rw [calculateSimilarity, specSimilarity]
  by_cases h : s1 = s2
  · subst h
    rw [if_pos rfl, levenshtein_self]
    norm_num
  · rw [if_neg h]
    by_cases h1 : s1.length = 0 ∨ s2.length = 0
    · rw [if_pos h1]
      rcases h1 with h1 | h1
      · have hs1 : s1.data = [] := string_data_eq_nil s1 h1
        by_cases h2 : s2.length = 0
        · exact absurd (String.ext (by rw [hs1, string_data_eq_nil s2 h2])) h
        · rw [hs1, levenshtein_nil_left, string_data_length, h1,
            Nat.max_eq_right (Nat.zero_le _)]
          rw [div_self (by exact_mod_cast h2)]
          norm_num
      · have hs2 : s2.data = [] := string_data_eq_nil s2 h1
        by_cases h2 : s1.length = 0
        · exact absurd (String.ext (by rw [hs2, string_data_eq_nil s1 h2])) h
        · rw [hs2, levenshtein_nil_right, string_data_length, h1,
            Nat.max_eq_left (Nat.zero_le _)]
          rw [div_self (by exact_mod_cast h2)]
          norm_num
    · rw [if_neg h1]
      push_neg at h1
      have hmax : ((max s1.length s2.length : ℕ) : ℚ) ≠ 0 := by
        have : max s1.length s2.length ≠ 0 := by omega
        exact_mod_cast this
      rw [Rat.divInt_eq_div]
      push_cast
      push_cast at hmax
      rw [eq_sub_iff_add_eq, div_add_div_same, sub_add_cancel,
        div_self hmax]

/-- The spec's five generic-mode matching clauses over the raw values
(empty-ness aside): normalized equality, containment either way, equal
parsed numbers, or edit-distance similarity above `0.8` when both
normalized forms are longer than 3. -/
def specFieldClauses (val1 val2 : String) : Prop :=
  normalizeString val1 = normalizeString val2 ∨
  jsIncludes (normalizeString val1) (normalizeString val2) = true ∨
  jsIncludes (normalizeString val2) (normalizeString val1) = true ∨
  (∃ q1 q2 : ℚ, jsParseFloat (normalizeString val1) = some q1 ∧
    jsParseFloat (normalizeString val2) = some q2 ∧ q1 = q2) ∨
  ((normalizeString val1).length > 3 ∧ (normalizeString val2).length > 3 ∧
    specSimilarity (normalizeString val1) (normalizeString val2) > 4 / 5)

/-- **C5, counterexample**: the claim's clause list declares a match
whenever one normalized form contains the other — which holds trivially
when one value is empty — but the code rejects any pair with exactly
one empty value before reaching that clause: at `("a", "")` the clauses
hold while `valuesMatch` is `false`. -/
theorem C5_counterexample :
    ¬ (valuesMatch "a" "" = true ↔
      (("a" = "" ∧ "" = "") ∨ specFieldClauses "a" "")) := by
  intro h
  have hmatch : valuesMatch "a" "" = true :=
    h.mpr (Or.inr (Or.inr (Or.inl (by decide))))
  exact absurd hmatch (by decide)

/-- **C5, amended**: two raw values match iff both are empty, or both
are *non-empty* and one of the spec's clauses holds (normalized forms
equal, one contains the other, both parse as numbers and are equal, or
both normalized forms have length `> 3` and edit-distance similarity
exceeds `0.8`).  The one-sided-empty guard is the only change forced by
the counterexample. -/
theorem C5_amended (val1 val2 : String) :
    valuesMatch val1 val2 = true ↔
      ((val1 = "" ∧ val2 = "") ∨
        (val1 ≠ "" ∧ val2 ≠ "" ∧ specFieldClauses val1 val2)) := by
  simp only [valuesMatch]
  split_ifs with c1 c2 c3 c4 c5 c6
  · simp only [Bool.and_eq_true, decide_eq_true_eq] at c1
    simp [c1.1, c1.2]
  · simp only [Bool.and_eq_true, decide_eq_true_eq, not_and] at c1
    simp only [Bool.or_eq_true, decide_eq_true_eq] at c2
    constructor
    · intro hfalse
      exact absurd hfalse (by simp)
    · rintro (⟨ha, hb⟩ | ⟨ha, hb, _⟩)
      · exact absurd hb (c1 ha)
      · rcases c2 with hc | hc
        · exact ha hc
        · exact hb hc
  · simp only [Bool.or_eq_true, decide_eq_true_eq, not_or] at c2
    simp only [beq_iff_eq] at c3
    simp only [true_iff]
    exact Or.inr ⟨c2.1, c2.2, Or.inl c3⟩
  · simp only [Bool.or_eq_true, decide_eq_true_eq, not_or] at c2
    simp only [true_iff]
    rcases Bool.or_eq_true _ _ |>.mp c4 with hc | hc
    · exact Or.inr ⟨c2.1, c2.2, Or.inr (Or.inl hc)⟩
    · exact Or.inr ⟨c2.1, c2.2, Or.inr (Or.inr (Or.inl hc))⟩
  · simp only [Bool.or_eq_true, decide_eq_true_eq, not_or] at c2
    simp only [Bool.and_eq_true, Option.isSome_iff_exists, beq_iff_eq] at c5
    obtain ⟨⟨⟨q1, hq1⟩, ⟨q2, hq2⟩⟩, heq⟩ := c5
    simp only [true_iff]
    refine Or.inr ⟨c2.1, c2.2, Or.inr (Or.inr (Or.inr (Or.inl
      ⟨q1, q2, hq1, hq2, ?_⟩)))⟩
    rw [hq1, hq2] at heq
    exact Option.some_injective _ heq
  · simp only [Bool.or_eq_true, decide_eq_true_eq, not_or] at c2
    simp only [beq_iff_eq] at c3
    simp only [Bool.or_eq_true, not_or, Bool.not_eq_true] at c4
    simp only [Bool.and_eq_true, decide_eq_true_eq] at c6
    rw [ratLt_iff, calculateSimilarity_eq_spec,
      show ((Rat.divInt 4 5 : ℚ)) = 4 / 5 by rw [Rat.divInt_eq_div]; norm_num]
    constructor
    · intro hsim
      exact Or.inr ⟨c2.1, c2.2, Or.inr (Or.inr (Or.inr (Or.inr
        ⟨c6.1, c6.2, hsim⟩)))⟩
    · rintro (⟨ha, _⟩ | ⟨_, _, hcl⟩)
      · exact absurd ha c2.1
      · rcases hcl with hcl | hcl | hcl | hcl | hcl
        · exact absurd hcl c3
        · exact absurd hcl (by simp [c4.1])
        · exact absurd hcl (by simp [c4.2])
        · obtain ⟨q1, q2, hq1, hq2, heq⟩ := hcl
          exact absurd trivial (by
            intro _
            apply c5
            simp [hq1, hq2, heq])
        · exact hcl.2.2
  · simp only [Bool.or_eq_true, decide_eq_true_eq, not_or] at c2
    simp only [beq_iff_eq] at c3
    simp only [Bool.or_eq_true, not_or, Bool.not_eq_true] at c4
    simp only [false_iff]
    rintro (⟨ha, _⟩ | ⟨_, _, hcl⟩)
    · exact absurd ha c2.1
    · rcases hcl with hcl | hcl | hcl | hcl | hcl
      · exact absurd hcl c3
      · exact absurd hcl (by simp [c4.1])
      · exact absurd hcl (by simp [c4.2])
      · obtain ⟨q1, q2, hq1, hq2, heq⟩ := hcl
        exact absurd trivial (by
          intro _
          apply c5
          simp [hq1, hq2, heq])
      · exact absurd trivial (by
          intro _
          apply c6
          simp [hcl.1, hcl.2.1])

/-! ## C6 — flexible company-name matching -/

theorem minMatches_iff (n f : ℕ) (hn : 1 ≤ n) :
    max 1 ((7 * n + 9) / 10) ≤ f ↔ ⌈(7 : ℚ) / 10 * n⌉₊ ≤ f := by
  rw [Nat.ceil_le, div_mul_eq_mul_div, div_le_iff₀ (by norm_num : (0:ℚ) < 10)]
  constructor
  · intro h
    have h' : 7 * n ≤ f * 10 := by omega
    exact_mod_cast h'
  · intro h
    have h' : 7 * n ≤ f * 10 := by exact_mod_cast h
    omega

/-- The filtered key-token list of a raw company name. -/
def keyTokens (name : String) : List String :=
  extractKeyWords (normalizeCompanyName name)

/-- The shorter of the two key-token lists (first one on ties, as the
source's destructuring picks `words1` when lengths are equal). -/
def shorterTokens (n1 n2 : String) : List String :=
  if (keyTokens n1).length ≤ (keyTokens n2).length then keyTokens n1
  else keyTokens n2

def longerTokens (n1 n2 : String) : List String :=
  if (keyTokens n1).length ≤ (keyTokens n2).length then keyTokens n2
  else keyTokens n1

/-- How many tokens of the shorter list are found (as substring or
superstring) among the longer list's tokens. -/
def foundCount (n1 n2 : String) : ℕ :=
  ((shorterTokens n1 n2).filter (wordFound (longerTokens n1 n2))).length

/-- **C6**: for company names whose normalized forms differ, the
flexible match succeeds iff both filtered token lists are non-empty and
at least `ceil(0.7 × |shorter token list|)` tokens of the shorter list
occur as substring or superstring of some token of the longer list; it
fails whenever either filtered token list is empty. -/
theorem C6_flexible_company_match (n1 n2 : String)
    (h : normalizeCompanyName n1 ≠ normalizeCompanyName n2) :
    stringsMatch n1 n2 = true ↔
      (keyTokens n1 ≠ [] ∧ keyTokens n2 ≠ [] ∧
        foundCount n1 n2 ≥ ⌈(7 : ℚ) / 10 * (shorterTokens n1 n2).length⌉₊) := by
  simp only [stringsMatch, keyTokens, shorterTokens, longerTokens, foundCount]
  rw [if_neg (by simpa using h), flexibleCompanyMatch]
  by_cases hz : (extractKeyWords (normalizeCompanyName n1)).length = 0 ∨
      (extractKeyWords (normalizeCompanyName n2)).length = 0
  · rw [if_pos hz]
    simp only [Bool.false_eq_true, false_iff]
    rintro ⟨hne1, hne2, _⟩
    rcases hz with hz | hz
    · exact hne1 (List.length_eq_zero.mp hz)
    · exact hne2 (List.length_eq_zero.mp hz)
  · rw [if_neg hz, decide_eq_true_iff]
    push_neg at hz
    have hn : 1 ≤ (if (extractKeyWords (normalizeCompanyName n1)).length ≤
        (extractKeyWords (normalizeCompanyName n2)).length then
          extractKeyWords (normalizeCompanyName n1)
        else extractKeyWords (normalizeCompanyName n2)).length := by
      rcases hz with ⟨hz1, hz2⟩
      split_ifs <;> omega
    simp only [ge_iff_le]
    rw [minMatches_iff _ _ hn]
    constructor
    · intro hfound
      exact ⟨fun hnil => hz.1 (by rw [hnil]; rfl),
        fun hnil => hz.2 (by rw [hnil]; rfl), hfound⟩
    · rintro ⟨_, _, hfound⟩
      exact hfound

/-- Witness for C6: `"ACME SRL"` vs `"ACME IMPEX SRL"` — normalized
forms differ, key-token lists are `["acme"]` and `["acme"]` (legal-form
and stop words dropped), and the single shorter token is found, so the
flexible match succeeds. -/
theorem C6_witness : stringsMatch "ACME SRL" "ACME IMPEX SRL" = true :=
  (C6_flexible_company_match "ACME SRL" "ACME IMPEX SRL" (by decide)).mpr
    ⟨by decide, by decide, by
      have h1 : foundCount "ACME SRL" "ACME IMPEX SRL" = 1 := by decide
      have h2 : (shorterTokens "ACME SRL" "ACME IMPEX SRL").length = 1 := by
        decide
      rw [h1, h2, ge_iff_le, Nat.ceil_le]
      norm_num⟩


/-! ## C2 — phase-2 fallback scoring and selection -/

theorem divInt_two_fifths : (Rat.divInt 2 5 : ℚ) = 2 / 5 := by
  rw [Rat.divInt_eq_div]
  norm_num

theorem divInt_one_fifth : (Rat.divInt 1 5 : ℚ) = 1 / 5 := by
  rw [Rat.divInt_eq_div]
  norm_num

theorem divInt_one_twentieth : (Rat.divInt 1 20 : ℚ) = 1 / 20 := by
  rw [Rat.divInt_eq_div]
  norm_num

theorem divInt_one_hundredth : (Rat.divInt 1 100 : ℚ) = 1 / 100 := by
  rw [Rat.divInt_eq_div]
  norm_num

theorem divInt_half : (Rat.divInt 1 2 : ℚ) = 1 / 2 := by
  rw [Rat.divInt_eq_div]
  norm_num

/-- `numbersMatch` in spec terms: absolute difference of the normalized
numbers strictly below `0.01`. -/
theorem numbersMatch_iff (a b : String) :
    numbersMatch a b = true ↔
      |normalizeNumber a - normalizeNumber b| < 1 / 100 := by
  rw [numbersMatch, ratLt_iff, ratAbs_eq, ratSub_eq, divInt_one_hundredth]

theorem datesMatch_iff (tz : ℤ) (a b : String) :
    datesMatch tz a b = true ↔ normalizeDate tz a = normalizeDate tz b := by
  rw [datesMatch, beq_iff_eq]

/-- Modelled from the spec: the date component of the fallback score —
`+0.4` if the normalized dates are equal, else `+0.2` if the absolute
day difference is at most 7 (`0` when either re-parsed date is
invalid). -/
def specDateScore (tz : ℤ) (e c : InvoiceRecord) : ℚ :=
  if normalizeDate tz e.dataEmitere = normalizeDate tz c.dataEmitere then 2 / 5
  else
    match jsDateParse tz (normalizeDate tz e.dataEmitere),
          jsDateParse tz (normalizeDate tz c.dataEmitere) with
    | some t1, some t2 => if ((|t1 - t2| : ℤ) : ℚ) / 1440 ≤ 7 then 1 / 5 else 0
    | _, _ => 0

/-- Modelled from the spec: the amount component — `+0.4` if the
amounts differ by less than `0.01`, else `+0.2` if `|a−b|/max(a,b)` is
at most `0.05` (the JS zero-division guard kept explicit). -/
def specAmountScore (e c : InvoiceRecord) : ℚ :=
  let a := normalizeNumber e.baza
  let b := normalizeNumber c.baza
  if |a - b| < 1 / 100 then 2 / 5
  else if max a b ≠ 0 ∧ |a - b| / max a b ≤ 1 / 20 then 1 / 5
  else 0

/-- Modelled from the spec: the VAT component — `+0.2` if the VAT rates
differ by less than `0.01`. -/
def specVatScore (e c : InvoiceRecord) : ℚ :=
  if |normalizeNumber e.cotaTVA - normalizeNumber c.cotaTVA| < 1 / 100
    then 1 / 5
  else 0

theorem dateScorePart_eq (tz : ℤ) (e c : InvoiceRecord) :
    dateScorePart tz e c = specDateScore tz e c := by
  rw [dateScorePart, specDateScore]
  by_cases hd : datesMatch tz e.dataEmitere c.dataEmitere = true
  · rw [if_pos hd, if_pos ((datesMatch_iff tz _ _).mp hd), divInt_two_fifths]
  · rw [if_neg hd, if_neg (fun hx => hd ((datesMatch_iff tz _ _).mpr hx))]
    cases h1 : jsDateParse tz (normalizeDate tz e.dataEmitere) with
    | none => rfl
    | some t1 =>
      cases h2 : jsDateParse tz (normalizeDate tz c.dataEmitere) with
      | none => rfl
      | some t2 =>
        dsimp only
        have hval : (Rat.divInt ((t1 - t2).natAbs) 1440 : ℚ) =
            ((|t1 - t2| : ℤ) : ℚ) / 1440 := by
          rw [Rat.divInt_eq_div]
          push_cast [Int.cast_natAbs]
          ring
        by_cases hc : ((|t1 - t2| : ℤ) : ℚ) / 1440 ≤ 7
        · rw [if_pos ((ratLe_iff _ _).mpr (by rw [hval]; exact hc)),
            if_pos hc, divInt_one_fifth]
        · rw [if_neg (fun hx => hc (by
            rw [← hval]
            exact (ratLe_iff _ _).mp hx)), if_neg hc]

theorem amountScorePart_eq (e c : InvoiceRecord) :
    amountScorePart e c = specAmountScore e c := by
  rw [amountScorePart, specAmountScore]
  by_cases hm : numbersMatch e.baza c.baza = true
  · rw [if_pos hm, if_pos ((numbersMatch_iff _ _).mp hm), divInt_two_fifths]
  · rw [if_neg hm,
      if_neg (fun hx => hm ((numbersMatch_iff _ _).mpr hx))]
    by_cases hz : ratMax (normalizeNumber e.baza) (normalizeNumber c.baza) = 0
    · rw [if_pos hz, if_neg]
      rintro ⟨hne, _⟩
      exact hne (by rw [← ratMax_eq]; exact hz)
    · rw [if_neg hz]
      by_cases hle : ratLe
          (ratDiv (ratAbs (ratSub (normalizeNumber e.baza)
            (normalizeNumber c.baza)))
            (ratMax (normalizeNumber e.baza) (normalizeNumber c.baza)))
          (Rat.divInt 1 20) = true
      · rw [if_pos hle, if_pos, divInt_one_fifth]
        refine ⟨fun hx => hz (by rw [ratMax_eq]; exact hx), ?_⟩
        have := (ratLe_iff _ _).mp hle
        rwa [ratDiv_eq, ratAbs_eq, ratSub_eq, ratMax_eq,
          divInt_one_twentieth] at this
      · rw [if_neg hle, if_neg]
        rintro ⟨_, hdiv⟩
        apply hle
        rw [ratLe_iff, ratDiv_eq, ratAbs_eq, ratSub_eq, ratMax_eq,
          divInt_one_twentieth]
        exact hdiv

theorem vatScorePart_eq (e c : InvoiceRecord) :
    vatScorePart e c = specVatScore e c := by
  rw [vatScorePart, specVatScore]
  by_cases hm : numbersMatch e.cotaTVA c.cotaTVA = true
  · rw [if_pos hm, if_pos ((numbersMatch_iff _ _).mp hm), divInt_one_fifth]
  · rw [if_neg hm, if_neg (fun hx => hm ((numbersMatch_iff _ _).mpr hx))]

theorem specDateScore_nonneg (tz : ℤ) (e c : InvoiceRecord) :
    0 ≤ specDateScore tz e c := by
  rw [specDateScore]
  split_ifs with h
  · norm_num
  · cases jsDateParse tz (normalizeDate tz e.dataEmitere) with
    | none => norm_num
    | some t1 =>
      cases jsDateParse tz (normalizeDate tz c.dataEmitere) with
      | none => norm_num
      | some t2 =>
        dsimp only
        split_ifs <;> norm_num

theorem specAmountScore_nonneg (e c : InvoiceRecord) :
    0 ≤ specAmountScore e c := by
  rw [specAmountScore]
  split_ifs <;> norm_num

theorem specVatScore_nonneg (e c : InvoiceRecord) :
    0 ≤ specVatScore e c := by
  rw [specVatScore]
  split_ifs <;> norm_num

theorem calculateMatchScore_eq_spec (tz : ℤ) (e c : InvoiceRecord) :
    calculateMatchScore tz e c =
      specDateScore tz e c + specAmountScore e c + specVatScore e c := by
  rw [calculateMatchScore, ratAdd_eq, ratAdd_eq, dateScorePart_eq,
    amountScorePart_eq, vatScorePart_eq]

theorem calculateMatchScore_nonneg (tz : ℤ) (e c : InvoiceRecord) :
    0 ≤ calculateMatchScore tz e c := by
  rw [calculateMatchScore_eq_spec]
  have h1 := specDateScore_nonneg tz e c
  have h2 := specAmountScore_nonneg e c
  have h3 := specVatScore_nonneg e c
  linarith

/-- Characterization of the phase-2 strict-improvement candidate fold:
from any accumulator that is either `(null, -1)` or a previously seen
unconsumed candidate with its score, the fold returns an unconsumed
candidate of maximal score (or stays `null` only when every candidate
is consumed), and the kept score never decreases. -/
theorem bcStep_fold (tz : ℤ) (pc : Finset ℕ) (e : InvoiceRecord) :
    ∀ (l : List (ℕ × InvoiceRecord)) (acc : Option (ℕ × InvoiceRecord) × ℚ),
      (∀ jc, acc.1 = some jc →
        jc.1 ∉ pc ∧ acc.2 = calculateMatchScore tz e jc.2) →
      (acc.1 = none → acc.2 = -1) →
      ((∀ jc, (l.foldl (bcStep tz pc e) acc).1 = some jc →
          (jc ∈ l ∨ acc.1 = some jc) ∧ jc.1 ∉ pc ∧
          (l.foldl (bcStep tz pc e) acc).2 = calculateMatchScore tz e jc.2) ∧
        (∀ kc ∈ l, kc.1 ∉ pc →
          calculateMatchScore tz e kc.2 ≤ (l.foldl (bcStep tz pc e) acc).2) ∧
        acc.2 ≤ (l.foldl (bcStep tz pc e) acc).2 ∧
        ((l.foldl (bcStep tz pc e) acc).1 = none →
          acc.1 = none ∧ ∀ kc ∈ l, kc.1 ∈ pc)) := by
  intro l
  induction l with
  | nil =>
    intro acc hacc _
    exact ⟨fun jc h => ⟨Or.inr h, (hacc jc h).1, (hacc jc h).2⟩,
      by simp, le_refl _, fun h => ⟨h, by simp⟩⟩
  | cons hd tl ih =>
    intro acc hacc hnone
    rw [List.foldl_cons]
    by_cases hmem : hd.1 ∈ pc
    · have hstep : bcStep tz pc e acc hd = acc := by
        simp only [bcStep]
        rw [if_pos hmem]
      rw [hstep]
      obtain ⟨ih1, ih2, ih3, ih4⟩ := ih acc hacc hnone
      refine ⟨fun jc h => ?_, fun kc hkc hkpc => ?_, ih3, fun h => ?_⟩
      · obtain ⟨hm, hpc, hsc⟩ := ih1 jc h
        exact ⟨hm.imp (List.mem_cons_of_mem hd) id, hpc, hsc⟩
      · rcases List.mem_cons.mp hkc with rfl | hkc'
        · exact absurd hmem hkpc
        · exact ih2 kc hkc' hkpc
      · obtain ⟨ha, hall⟩ := ih4 h
        refine ⟨ha, fun kc hkc => ?_⟩
        rcases List.mem_cons.mp hkc with rfl | hkc'
        · exact hmem
        · exact hall kc hkc'
    · by_cases himp : ratLt acc.2 (calculateMatchScore tz e hd.2) = true
      · have hstep : bcStep tz pc e acc hd =
            (some hd, calculateMatchScore tz e hd.2) := by
          simp only [bcStep]
          rw [if_neg hmem, if_pos himp]
        rw [hstep]
        have hacc' : ∀ jc,
            ((some hd, calculateMatchScore tz e hd.2) :
              Option (ℕ × InvoiceRecord) × ℚ).1 = some jc →
            jc.1 ∉ pc ∧
            ((some hd, calculateMatchScore tz e hd.2) :
              Option (ℕ × InvoiceRecord) × ℚ).2 =
              calculateMatchScore tz e jc.2 := by
          intro jc h
          have : hd = jc := by simpa using h
          subst this
          exact ⟨hmem, rfl⟩
        obtain ⟨ih1, ih2, ih3, ih4⟩ := ih _ hacc' (by simp)
        refine ⟨fun jc h => ?_, fun kc hkc hkpc => ?_, ?_, fun h => ?_⟩
        · obtain ⟨hm, hpc, hsc⟩ := ih1 jc h
          rcases hm with h' | h'
          · exact ⟨Or.inl (List.mem_cons_of_mem _ h'), hpc, hsc⟩
          · have : hd = jc := by simpa using h'
            subst this
            exact ⟨Or.inl (List.mem_cons_self hd tl), hpc, hsc⟩
        · rcases List.mem_cons.mp hkc with rfl | hkc'
          · exact ih3
          · exact ih2 kc hkc' hkpc
        · exact le_trans (le_of_lt ((ratLt_iff _ _).mp himp)) ih3
        · obtain ⟨ha, _⟩ := ih4 h
          exact absurd ha (by simp)
      · have hstep : bcStep tz pc e acc hd = acc := by
          simp only [bcStep]
          rw [if_neg hmem, if_neg himp]
        rw [hstep]
        obtain ⟨ih1, ih2, ih3, ih4⟩ := ih acc hacc hnone
        have hle : calculateMatchScore tz e hd.2 ≤ acc.2 := by
          have hf : ratLt acc.2 (calculateMatchScore tz e hd.2) = false := by
            cases hb : ratLt acc.2 (calculateMatchScore tz e hd.2)
            · rfl
            · exact absurd hb himp
          exact (ratLt_iff_false _ _).mp hf
        refine ⟨fun jc h => ?_, fun kc hkc hkpc => ?_, ih3, fun h => ?_⟩
        · obtain ⟨hm, hpc, hsc⟩ := ih1 jc h
          exact ⟨hm.imp (List.mem_cons_of_mem hd) id, hpc, hsc⟩
        · rcases List.mem_cons.mp hkc with rfl | hkc'
          · exact le_trans hle ih3
          · exact ih2 kc hkc' hkpc
        · obtain ⟨ha, _⟩ := ih4 h
          -- acc is null with value -1, yet a fresh candidate failed the
          -- strict-improvement test against -1: impossible, scores are ≥ 0
          exact absurd ((ratLt_iff _ _).mpr
            (lt_of_lt_of_le (show (-1 : ℚ) < 0 by norm_num)
              (calculateMatchScore_nonneg tz e hd.2)))
            (by rw [hnone ha] at himp; exact himp)

/-- Selection behaviour of phase 2 at one left record, as the claim
states it: when a strictly dominant unconsumed candidate exists, it is
the one picked, and the pair is accepted iff its score exceeds `0.5`. -/
theorem phase2Step_spec (tz : ℤ) (csv : List InvoiceRecord) (s : MState)
    (ie : ℕ × InvoiceRecord) (j : ℕ) (c : InvoiceRecord)
    (hpe : ie.1 ∉ s.pe)
    (hmem : (j, c) ∈ invoiceCandidates csv (normalizeInvoiceNumber ie.2.nrFactur))
    (hpc : j ∉ s.pc)
    (hdom : ∀ kc ∈ invoiceCandidates csv (normalizeInvoiceNumber ie.2.nrFactur),
      kc.1 ∉ s.pc → kc ≠ (j, c) →
      calculateMatchScore tz ie.2 kc.2 < calculateMatchScore tz ie.2 c) :
    (1 / 2 < calculateMatchScore tz ie.2 c →
      phase2Step tz csv s ie = classifyPush
        { s with pe := insert ie.1 s.pe, pc := insert j s.pc }
        { excelIdx := ie.1, csvIdx := j, excelRecord := ie.2,
          csvRecord := c, differences := findDifferences tz ie.2 c,
          matchType := .invoiceOnly }) ∧
    (calculateMatchScore tz ie.2 c ≤ 1 / 2 → phase2Step tz csv s ie = s) := by
  have hbest : bestCandidate tz s.pc ie.2
      (invoiceCandidates csv (normalizeInvoiceNumber ie.2.nrFactur)) =
      (some (j, c), calculateMatchScore tz ie.2 c) := by
    obtain ⟨h1, h2, _, h4⟩ := bcStep_fold tz s.pc ie.2
      (invoiceCandidates csv (normalizeInvoiceNumber ie.2.nrFactur))
      (none, -1) (by simp) (by simp)
    rw [bestCandidate]
    set r := (invoiceCandidates csv
      (normalizeInvoiceNumber ie.2.nrFactur)).foldl
      (bcStep tz s.pc ie.2) (none, -1) with hr
    cases hro : r.1 with
    | none =>
      obtain ⟨_, hall⟩ := h4 hro
      exact absurd (hall (j, c) hmem) hpc
    | some jc =>
      obtain ⟨hm, hjcpc, hsc⟩ := h1 jc hro
      have hmc : jc ∈ invoiceCandidates csv
          (normalizeInvoiceNumber ie.2.nrFactur) := by
        rcases hm with h' | h'
        · exact h'
        · simp at h'
      have hjeq : jc = (j, c) := by
        by_contra hne
        have hlt := hdom jc hmc hjcpc hne
        have hge := h2 (j, c) hmem hpc
        rw [hsc] at hge
        exact absurd (lt_of_le_of_lt hge hlt) (lt_irrefl _)
      subst hjeq
      have : r = (r.1, r.2) := rfl
      rw [this, hro, hsc]
  constructor
  · intro hthr
    simp only [phase2Step]
    rw [if_neg hpe, hbest]
    have hcond : ratLt (Rat.divInt 1 2) (calculateMatchScore tz ie.2 c) =
        true := by
      rw [ratLt_iff, divInt_half]
      exact hthr
    dsimp only
    rw [if_pos hcond]
  · intro hthr
    simp only [phase2Step]
    rw [if_neg hpe, hbest]
    have hcond : ratLt (Rat.divInt 1 2) (calculateMatchScore tz ie.2 c) =
        false := by
      rw [ratLt_iff_false, divInt_half]
      exact hthr
    dsimp only
    rw [hcond]
    simp

/-- **C2**: the phase-2 candidate score is exactly the sum of the date
component (`0.4` on equal normalized dates, else `0.2` for a day
difference of at most 7, `0` from 8 on), the amount component (`0.4`
within the `0.01` epsilon, else `0.2` when the difference is within 5%
of the larger amount) and the VAT component (`0.2` within epsilon); and
for a left record not consumed by the exact phase, the unconsumed
candidate with the strictly highest score is picked, the pair being
accepted iff that score exceeds `0.5`. -/
theorem C2_fallback_score_and_selection :
    (∀ (tz : ℤ) (e c : InvoiceRecord),
      calculateMatchScore tz e c =
        specDateScore tz e c + specAmountScore e c + specVatScore e c) ∧
    (∀ (tz : ℤ) (csv : List InvoiceRecord) (s : MState)
      (ie : ℕ × InvoiceRecord) (j : ℕ) (c : InvoiceRecord),
      ie.1 ∉ s.pe →
      (j, c) ∈ invoiceCandidates csv (normalizeInvoiceNumber ie.2.nrFactur) →
      j ∉ s.pc →
      (∀ kc ∈ invoiceCandidates csv (normalizeInvoiceNumber ie.2.nrFactur),
        kc.1 ∉ s.pc → kc ≠ (j, c) →
        calculateMatchScore tz ie.2 kc.2 < calculateMatchScore tz ie.2 c) →
      ((1 / 2 < calculateMatchScore tz ie.2 c →
        phase2Step tz csv s ie = classifyPush
          { s with pe := insert ie.1 s.pe, pc := insert j s.pc }
          { excelIdx := ie.1, csvIdx := j, excelRecord := ie.2,
            csvRecord := c, differences := findDifferences tz ie.2 c,
            matchType := .invoiceOnly }) ∧
       (calculateMatchScore tz ie.2 c ≤ 1 / 2 →
        phase2Step tz csv s ie = s))) :=
  ⟨calculateMatchScore_eq_spec,
   fun tz csv s ie j c hpe hmem hpc hdom =>
    phase2Step_spec tz csv s ie j c hpe hmem hpc hdom⟩

/-- Concrete records for the C2 witness: same invoice number `F002`,
no exact key match; the second candidate scores `0.2 + 0.4 + 0.2 = 0.8`
(3-day date gap, equal amount, equal VAT), the first only `0.2`. -/
def wC2excel : InvoiceRecord := ⟨"F002", "2024-01-10", "ACME", "RO1", "19", "100"⟩

def wC2csv1 : InvoiceRecord := ⟨"F002", "2023-06-10", "ACME", "RO2", "19", "500"⟩

def wC2csv2 : InvoiceRecord := ⟨"F002", "2024-01-13", "ACME", "RO3", "19", "100"⟩

/-- Witness for C2: the dominant candidate (index 1, score `0.8 > 0.5`)
is consumed and the matched pair recorded. -/
theorem C2_witness :
    phase2Step 0 [wC2csv1, wC2csv2] MState.init (0, wC2excel) =
      classifyPush
        { MState.init with
          pe := insert 0 MState.init.pe
          pc := insert 1 MState.init.pc }
        { excelIdx := 0, csvIdx := 1, excelRecord := wC2excel,
          csvRecord := wC2csv2,
          differences := findDifferences 0 wC2excel wC2csv2,
          matchType := .invoiceOnly } :=
  (C2_fallback_score_and_selection.2 0 [wC2csv1, wC2csv2] MState.init
    (0, wC2excel) 1 wC2csv2 (by decide) (by decide) (by decide)
    (by decide)).1
    (by
      have h : calculateMatchScore 0 wC2excel wC2csv2 = Rat.divInt 4 5 := by
        decide
      rw [h, Rat.divInt_eq_div]
      norm_num)

/-! ## C8 — generic-mode greedy selection -/

theorem enumFrom_fst_bounds {α : Type} :
    ∀ (l : List α) (n : ℕ) (p : ℕ × α), p ∈ List.enumFrom n l →
      n ≤ p.1 ∧ p.1 < n + l.length := by
  intro l
  induction l with
  | nil =>
    intro n p hp
    simp [List.enumFrom] at hp
  | cons hd tl ih =>
    intro n p hp
    rcases List.mem_cons.mp hp with rfl | hp'
    · simp
    · have := ih (n + 1) p hp'
      simp only [List.length_cons]
      omega

theorem divInt_cast_div (a b : ℕ) :
    (Rat.divInt (a : ℤ) (b : ℤ) : ℚ) = (a : ℚ) / b := by
  rw [Rat.divInt_eq_div]
  push_cast
  ring

/-- The generic score of one candidate row, in the raw `divInt` form
the fold computes. -/
def rawGenScore (mappings : List ColumnMapping) (erow crow : GenRow) : ℚ :=
  Rat.divInt (evalCandidate mappings erow crow).2 mappings.length

/-- Characterization of the generic candidate scan: the fold keeps an
unconsumed row of maximal score among those scoring at least `0.5`,
and on ties the earliest row wins (a later candidate replaces only on a
*strictly* greater score). -/
theorem fbgStep_fold (mappings : List ColumnMapping) (used : Finset ℕ)
    (erow : GenRow) :
    ∀ (csv : List GenRow) (n : ℕ) (acc : Option BestGeneric),
      (∀ b0, acc = some b0 → b0.csvIndex ∉ used ∧ b0.csvIndex < n ∧
        b0.differences = (evalCandidate mappings erow b0.csvRecord).1 ∧
        b0.score = rawGenScore mappings erow b0.csvRecord ∧
        (1 / 2 : ℚ) ≤ b0.score) →
      ((∀ b, (List.enumFrom n csv).foldl (fbgStep mappings used erow) acc =
          some b →
        ((b.csvIndex, b.csvRecord) ∈ List.enumFrom n csv ∨ acc = some b) ∧
        b.csvIndex ∉ used ∧
        b.differences = (evalCandidate mappings erow b.csvRecord).1 ∧
        b.score = rawGenScore mappings erow b.csvRecord ∧
        (1 / 2 : ℚ) ≤ b.score) ∧
      ((List.enumFrom n csv).foldl (fbgStep mappings used erow) acc = none →
        acc = none ∧ ∀ jc ∈ List.enumFrom n csv, jc.1 ∉ used →
          rawGenScore mappings erow jc.2 < 1 / 2) ∧
      (∀ b, (List.enumFrom n csv).foldl (fbgStep mappings used erow) acc =
          some b →
        ∀ jc ∈ List.enumFrom n csv, jc.1 ∉ used →
          rawGenScore mappings erow jc.2 ≤ b.score ∧
          (jc.1 < b.csvIndex → rawGenScore mappings erow jc.2 < b.score)) ∧
      (∀ b0, acc = some b0 →
        ∃ b, (List.enumFrom n csv).foldl (fbgStep mappings used erow) acc =
          some b ∧ (b = b0 ∨ b0.score < b.score))) := by
  intro csv
  induction csv with
  | nil =>
    intro n acc hacc
    refine ⟨fun b h => ?_, fun h => ⟨h, by simp [List.enumFrom]⟩,
      fun b _ jc hjc => ?_, fun b0 h0 => ⟨b0, h0, Or.inl rfl⟩⟩
    · obtain ⟨h1, h2, h3, h4, h5⟩ := hacc b h
      exact ⟨Or.inr h, h1, h3, h4, h5⟩
    · simp [List.enumFrom] at hjc
  | cons row rest ih =>
    intro n acc hacc
    have hcons : List.enumFrom n (row :: rest) =
        (n, row) :: List.enumFrom (n + 1) rest := rfl
    rw [hcons, List.foldl_cons]
    by_cases hmem : n ∈ used
    · have hstep : fbgStep mappings used erow acc (n, row) = acc := by
        simp only [fbgStep]
        rw [if_pos hmem]
      rw [hstep]
      have hacc' : ∀ b0, acc = some b0 → b0.csvIndex ∉ used ∧
          b0.csvIndex < n + 1 ∧
          b0.differences = (evalCandidate mappings erow b0.csvRecord).1 ∧
          b0.score = rawGenScore mappings erow b0.csvRecord ∧
          (1 / 2 : ℚ) ≤ b0.score := by
        intro b0 h0
        obtain ⟨h1, h2, h3, h4, h5⟩ := hacc b0 h0
        exact ⟨h1, by omega, h3, h4, h5⟩
      obtain ⟨ih1, ih2, ih3, ih4⟩ := ih (n + 1) acc hacc'
      refine ⟨fun b h => ?_, fun h => ?_, fun b h jc hjc hju => ?_, ih4⟩
      · obtain ⟨hm, rest'⟩ := ih1 b h
        exact ⟨hm.imp (fun x => List.mem_cons_of_mem _ x) id, rest'⟩
      · obtain ⟨ha, hall⟩ := ih2 h
        refine ⟨ha, fun jc hjc hju => ?_⟩
        rcases List.mem_cons.mp hjc with rfl | hjc'
        · exact absurd hmem hju
        · exact hall jc hjc' hju
      · rcases List.mem_cons.mp hjc with rfl | hjc'
        · exact absurd hmem hju
        · exact ih3 b h jc hjc' hju
    · by_cases hcond : ratLe (Rat.divInt 1 2)
          (Rat.divInt (evalCandidate mappings erow row).2 mappings.length) =
            true ∧
          ∀ b ∈ acc, ratLt b.score
            (Rat.divInt (evalCandidate mappings erow row).2
              mappings.length) = true
      · have hstep : fbgStep mappings used erow acc (n, row) =
            some ⟨n, (evalCandidate mappings erow row).1, row,
              Rat.divInt (evalCandidate mappings erow row).2
                mappings.length⟩ := by
          simp only [fbgStep]
          rw [if_neg hmem, if_pos hcond]
        rw [hstep]
        have hhalf : (1 / 2 : ℚ) ≤
            Rat.divInt (evalCandidate mappings erow row).2 mappings.length := by
          have := (ratLe_iff _ _).mp hcond.1
          rwa [divInt_half] at this
        have hacc' : ∀ b0,
            (some ⟨n, (evalCandidate mappings erow row).1, row,
              Rat.divInt (evalCandidate mappings erow row).2
                mappings.length⟩ : Option BestGeneric) = some b0 →
            b0.csvIndex ∉ used ∧ b0.csvIndex < n + 1 ∧
            b0.differences = (evalCandidate mappings erow b0.csvRecord).1 ∧
            b0.score = rawGenScore mappings erow b0.csvRecord ∧
            (1 / 2 : ℚ) ≤ b0.score := by
          intro b0 h0
          have : b0 = ⟨n, (evalCandidate mappings erow row).1, row,
              Rat.divInt (evalCandidate mappings erow row).2
                mappings.length⟩ := by
            exact (Option.some_injective _ h0).symm
          subst this
          exact ⟨hmem, Nat.lt_succ_self n, rfl, rfl, hhalf⟩
        obtain ⟨ih1, ih2, ih3, ih4⟩ := ih (n + 1) _ hacc'
        refine ⟨fun b h => ?_, fun h => ?_, fun b h jc hjc hju => ?_, ?_⟩
        · obtain ⟨hm, rest'⟩ := ih1 b h
          rcases hm with h' | h'
          · exact ⟨Or.inl (List.mem_cons_of_mem _ h'), rest'⟩
          · have hb : b = ⟨n, (evalCandidate mappings erow row).1, row,
                Rat.divInt (evalCandidate mappings erow row).2
                  mappings.length⟩ := (Option.some_injective _ h').symm
            subst hb
            exact ⟨Or.inl (List.mem_cons_self _ _), rest'⟩
        · obtain ⟨ha, _⟩ := ih2 h
          exact absurd ha (by simp)
        · rcases List.mem_cons.mp hjc with rfl | hjc'
          · -- the new element is the accumulator passed to the tail fold
            obtain ⟨b', hb', hor⟩ := ih4 _ rfl
            rw [hb'] at h
            have hbb : b' = b := Option.some_injective _ h
            subst hbb
            rcases hor with rfl | hlt
            · exact ⟨le_refl _, fun hx => absurd hx (by simp)⟩
            · exact ⟨le_of_lt hlt, fun _ => hlt⟩
          · exact ih3 b h jc hjc' hju
        · intro b0 h0
          obtain ⟨b', hb', hor⟩ := ih4 _ rfl
          refine ⟨b', hb', Or.inr ?_⟩
          have hlt0 : b0.score < Rat.divInt
              (evalCandidate mappings erow row).2 mappings.length := by
            have := (ratLt_iff _ _).mp (hcond.2 b0 (by rw [h0]; rfl))
            exact this
          rcases hor with rfl | hlt
          · exact hlt0
          · exact lt_trans hlt0 hlt
      · have hstep : fbgStep mappings used erow acc (n, row) = acc := by
          simp only [fbgStep]
          rw [if_neg hmem, if_neg hcond]
        rw [hstep]
        have hacc' : ∀ b0, acc = some b0 → b0.csvIndex ∉ used ∧
            b0.csvIndex < n + 1 ∧
            b0.differences = (evalCandidate mappings erow b0.csvRecord).1 ∧
            b0.score = rawGenScore mappings erow b0.csvRecord ∧
            (1 / 2 : ℚ) ≤ b0.score := by
          intro b0 h0
          obtain ⟨h1, h2, h3, h4, h5⟩ := hacc b0 h0
          exact ⟨h1, by omega, h3, h4, h5⟩
        obtain ⟨ih1, ih2, ih3, ih4⟩ := ih (n + 1) acc hacc'
        refine ⟨fun b h => ?_, fun h => ?_, fun b h jc hjc hju => ?_, ih4⟩
        · obtain ⟨hm, rest'⟩ := ih1 b h
          exact ⟨hm.imp (fun x => List.mem_cons_of_mem _ x) id, rest'⟩
        · obtain ⟨ha, hall⟩ := ih2 h
          refine ⟨ha, fun jc hjc hju => ?_⟩
          rcases List.mem_cons.mp hjc with rfl | hjc'
          · -- the new row was rejected; with a null accumulator the
            -- only failing conjunct is the 0.5 threshold
            rw [ha] at hcond
            by_contra hge
            push_neg at hge
            exact hcond ⟨by rw [ratLe_iff, divInt_half]; exact hge,
              fun b hb => absurd hb (by simp)⟩
          · exact hall jc hjc' hju
        · rcases List.mem_cons.mp hjc with rfl | hjc'
          · -- the rejected row against the final best
            obtain ⟨_, _, _, _, hbhalf⟩ := ih1 b h
            cases hao : acc with
            | none =>
              have hlt : rawGenScore mappings erow row < 1 / 2 := by
                rw [hao] at hcond
                by_contra hge
                push_neg at hge
                exact hcond ⟨by rw [ratLe_iff, divInt_half]; exact hge,
                  fun b1 hb1 => absurd hb1 (by simp)⟩
              exact ⟨le_of_lt (lt_of_lt_of_le hlt hbhalf),
                fun _ => lt_of_lt_of_le hlt hbhalf⟩
            | some b0 =>
              obtain ⟨_, hb0n, _, _, _⟩ := hacc b0 hao
              by_cases hA : ratLe (Rat.divInt 1 2)
                  (Rat.divInt (evalCandidate mappings erow row).2
                    mappings.length) = true
              · have hscle : rawGenScore mappings erow row ≤ b0.score := by
                  by_contra hgt
                  push_neg at hgt
                  refine hcond ⟨hA, fun b1 hb1 => ?_⟩
                  have hb1e : b0 = b1 := by
                    rw [hao] at hb1
                    simpa using hb1
                  subst hb1e
                  exact (ratLt_iff _ _).mpr hgt
                obtain ⟨b', hb', hor⟩ := ih4 b0 hao
                have hbb : b' = b := Option.some_injective _ (hb'.symm.trans h)
                subst hbb
                rcases hor with rfl | hlt
                · exact ⟨hscle, fun hn => absurd hn (by omega)⟩
                · exact ⟨le_trans hscle (le_of_lt hlt),
                    fun _ => lt_of_le_of_lt hscle hlt⟩
              · have hlt : rawGenScore mappings erow row < 1 / 2 := by
                  by_contra hge
                  push_neg at hge
                  exact hA (by rw [ratLe_iff, divInt_half]; exact hge)
                exact ⟨le_of_lt (lt_of_lt_of_le hlt hbhalf),
                  fun _ => lt_of_lt_of_le hlt hbhalf⟩
          · exact ih3 b h jc hjc' hju

theorem rawGenScore_eq (mappings : List ColumnMapping) (erow crow : GenRow) :
    rawGenScore mappings erow crow =
      ((evalCandidate mappings erow crow).2 : ℚ) / mappings.length :=
  divInt_cast_div _ _

/-- **C8**: in generic mode, a left row's scan returns no candidate iff
every unconsumed right row scores strictly below `0.5` (so acceptance
happens exactly at score `≥ 0.5`, an inclusive boundary — matching 1 of
2 mapped columns suffices); the returned candidate is an unconsumed
right row of maximal score (`score = matching mappings / total
mappings`), and every earlier unconsumed row scores strictly lower, so
the earliest-encountered row wins ties. -/
theorem C8_generic_threshold_and_tiebreak (mappings : List ColumnMapping)
    (erow : GenRow) (csv : List GenRow) (used : Finset ℕ) :
    (findBestGeneric mappings used erow csv = none ↔
      ∀ jc ∈ csv.enum, jc.1 ∉ used →
        ((evalCandidate mappings erow jc.2).2 : ℚ) / mappings.length
          < 1 / 2) ∧
    (∀ b, findBestGeneric mappings used erow csv = some b →
      (b.csvIndex, b.csvRecord) ∈ csv.enum ∧ b.csvIndex ∉ used ∧
      b.differences = (evalCandidate mappings erow b.csvRecord).1 ∧
      b.score = ((evalCandidate mappings erow b.csvRecord).2 : ℚ) /
        mappings.length ∧
      (1 / 2 : ℚ) ≤ b.score ∧
      (∀ jc ∈ csv.enum, jc.1 ∉ used →
        ((evalCandidate mappings erow jc.2).2 : ℚ) / mappings.length ≤
          b.score) ∧
      (∀ jc ∈ csv.enum, jc.1 ∉ used → jc.1 < b.csvIndex →
        ((evalCandidate mappings erow jc.2).2 : ℚ) / mappings.length <
          b.score)) := by
  obtain ⟨f1, f2, f3, f4⟩ := fbgStep_fold mappings used erow csv 0 none
    (by simp)
  constructor
  · constructor
    · intro h jc hjc hju
      rw [← rawGenScore_eq]
      exact (f2 h).2 jc hjc hju
    · intro hall
      cases hro : findBestGeneric mappings used erow csv with
      | none => rfl
      | some b =>
        obtain ⟨hm, hbu, _, hbs, hbh⟩ := f1 b hro
        rcases hm with hm | hm
        · have := hall (b.csvIndex, b.csvRecord) hm hbu
          rw [← rawGenScore_eq] at this
          rw [hbs] at hbh
          exact absurd (lt_of_le_of_lt hbh this) (lt_irrefl _)
        · exact absurd hm (by simp)
  · intro b hro
    obtain ⟨hm, hbu, hbd, hbs, hbh⟩ := f1 b hro
    have hmem : (b.csvIndex, b.csvRecord) ∈ csv.enum := by
      rcases hm with hm | hm
      · exact hm
      · exact absurd hm (by simp)
    refine ⟨hmem, hbu, hbd, by rw [hbs, rawGenScore_eq], hbh,
      fun jc hjc hju => ?_, fun jc hjc hju hlt => ?_⟩
    · rw [← rawGenScore_eq]
      exact (f3 b hro jc hjc hju).1
    · rw [← rawGenScore_eq]
      exact (f3 b hro jc hjc hju).2 hlt

/-- Concrete data for the C8 witness: two mappings, one matching field
(Scenario D of the spec) — score exactly `0.5`, accepted. -/
def wC8m1 : ColumnMapping := ⟨"A", "X"⟩

def wC8m2 : ColumnMapping := ⟨"B", "Y"⟩

def wC8erow : GenRow := [("A", "1"), ("B", "2")]

def wC8crow : GenRow := [("X", "1"), ("Y", "99")]

def wC8best : BestGeneric :=
  ⟨0, ["B (2) ≠ Y (99)"], [("X", "1"), ("Y", "99")], Rat.divInt 1 2⟩

/-- Witness for C8: with 1 of 2 mapped columns matching, the candidate
(score exactly `0.5`) is accepted — the boundary is inclusive. -/
theorem C8_witness :
    (1 / 2 : ℚ) ≤ wC8best.score ∧ wC8best.csvIndex ∉ (∅ : Finset ℕ) := by
  have h := (C8_generic_threshold_and_tiebreak [wC8m1, wC8m2] wC8erow
    [wC8crow] ∅).2 wC8best (by decide)
  exact ⟨h.2.2.2.2.1, h.2.1⟩

/-! ## Shared machinery for the bucket-partition claims (C1, C4, C9)

Multiset views of the matched buckets, characterizations of the lookup
helpers, and shape lemmas describing what one fold step can do to the
matcher state. -/

def pairsOf (s : MState) : List MatchedRecord :=
  s.perfect ++ s.trans ++ s.value

/-- Excel indices of all matched pairs, as a multiset. -/
def exIdxMs (s : MState) : Multiset ℕ := ↑((pairsOf s).map (·.excelIdx))

/-- CSV indices of all matched pairs, as a multiset. -/
def csIdxMs (s : MState) : Multiset ℕ := ↑((pairsOf s).map (·.csvIdx))

theorem classifyPush_pe (s : MState) (pair : MatchedRecord) :
    (classifyPush s pair).pe = s.pe := by
  rw [classifyPush]
  split_ifs <;> rfl

theorem classifyPush_pc (s : MState) (pair : MatchedRecord) :
    (classifyPush s pair).pc = s.pc := by
  rw [classifyPush]
  split_ifs <;> rfl

theorem perm_push_first {α : Type} (A B C : List α) (x : α) :
    (((A ++ [x]) ++ B) ++ C).Perm (x :: ((A ++ B) ++ C)) :=
  ((List.perm_append_singleton x A).append_right B).append_right C

theorem perm_push_second {α : Type} (A B C : List α) (x : α) :
    ((A ++ (B ++ [x])) ++ C).Perm (x :: ((A ++ B) ++ C)) :=
  (((List.perm_append_singleton x B).append_left A).trans
    List.perm_middle).append_right C

theorem perm_push_third {α : Type} (A B C : List α) (x : α) :
    ((A ++ B) ++ (C ++ [x])).Perm (x :: ((A ++ B) ++ C)) := by
  rw [← List.append_assoc]
  exact List.perm_append_singleton x ((A ++ B) ++ C)

theorem classifyPush_exIdx (s : MState) (pair : MatchedRecord) :
    exIdxMs (classifyPush s pair) = pair.excelIdx ::ₘ exIdxMs s := by
  rw [classifyPush]
  split_ifs
  all_goals
    simp only [exIdxMs, pairsOf]
    rw [Multiset.cons_coe, Multiset.coe_eq_coe]
    simp only [List.map_append, List.map_cons, List.map_nil]
  · exact perm_push_first _ _ _ _
  · exact perm_push_second _ _ _ _
  · exact perm_push_third _ _ _ _

theorem classifyPush_csIdx (s : MState) (pair : MatchedRecord) :
    csIdxMs (classifyPush s pair) = pair.csvIdx ::ₘ csIdxMs s := by
  rw [classifyPush]
  split_ifs
  all_goals
    simp only [csIdxMs, pairsOf]
    rw [Multiset.cons_coe, Multiset.coe_eq_coe]
    simp only [List.map_append, List.map_cons, List.map_nil]
  · exact perm_push_first _ _ _ _
  · exact perm_push_second _ _ _ _
  · exact perm_push_third _ _ _ _

theorem classifyPush_mem (s : MState) (pair p : MatchedRecord) :
    p ∈ pairsOf (classifyPush s pair) ↔ p ∈ pairsOf s ∨ p = pair := by
  rw [classifyPush]
  split_ifs <;> simp [pairsOf] <;> tauto

theorem exactLookup_key (csv : List InvoiceRecord) (k : String) (j : ℕ)
    (c : InvoiceRecord) (h : exactLookup csv k = some (j, c)) :
    createRecordKey c.cifEmitent c.nrFactur = k ∧ (j, c) ∈ csv.enum := by
  rw [exactLookup] at h
  have h1 := List.find?_some h
  have h2 := List.mem_of_find?_eq_some h
  rw [List.mem_reverse] at h2
  exact ⟨by simpa using h1, h2⟩

theorem enumFrom_fst_inj {α : Type} : ∀ (l : List α) (n j : ℕ) (a b : α),
    (j, a) ∈ List.enumFrom n l → (j, b) ∈ List.enumFrom n l → a = b := by
  intro l
  induction l with
  | nil =>
    intro n j a b ha
    simp [List.enumFrom] at ha
  | cons hd tl ih =>
    intro n j a b ha hb
    have hcons : List.enumFrom n (hd :: tl) =
        (n, hd) :: List.enumFrom (n + 1) tl := rfl
    rw [hcons] at ha hb
    rcases List.mem_cons.mp ha with ha' | ha' <;>
      rcases List.mem_cons.mp hb with hb' | hb'
    · rw [Prod.mk.injEq] at ha' hb'
      rw [ha'.2, hb'.2]
    · exfalso
      have hj : j = n := (Prod.mk.injEq _ _ _ _ |>.mp ha').1.symm ▸ rfl
      have := (enumFrom_fst_bounds tl (n + 1) (j, b) hb').1
      have hjn : n = j := congrArg Prod.fst ha'.symm
      omega
    · exfalso
      have := (enumFrom_fst_bounds tl (n + 1) (j, a) ha').1
      have hjn : n = j := congrArg Prod.fst hb'.symm
      omega
    · exact ih (n + 1) j a b ha' hb'

theorem enum_fst_inj {α : Type} (l : List α) (j : ℕ) (a b : α)
    (ha : (j, a) ∈ l.enum) (hb : (j, b) ∈ l.enum) : a = b :=
  enumFrom_fst_inj l 0 j a b ha hb

/-- Two successful exact lookups returning the same position must have
queried the same key (the map is keyed by each record's own key). -/
theorem exactLookup_det (csv : List InvoiceRecord) (k k' : String) (j : ℕ)
    (c c' : InvoiceRecord) (h : exactLookup csv k = some (j, c))
    (h' : exactLookup csv k' = some (j, c')) : k = k' := by
  obtain ⟨hk, hm⟩ := exactLookup_key csv k j c h
  obtain ⟨hk', hm'⟩ := exactLookup_key csv k' j c' h'
  have : c = c' := enum_fst_inj csv j c c' hm hm'
  rw [← hk, ← hk', this]

theorem enumFrom_map_fst {α : Type} : ∀ (l : List α) (n : ℕ),
    (List.enumFrom n l).map Prod.fst = List.range' n l.length := by
  intro l
  induction l with
  | nil => intro n; rfl
  | cons hd tl ih =>
    intro n
    have hcons : List.enumFrom n (hd :: tl) =
        (n, hd) :: List.enumFrom (n + 1) tl := rfl
    rw [hcons, List.map_cons, ih (n + 1)]
    rfl

theorem enum_map_fst_range {α : Type} (l : List α) :
    l.enum.map Prod.fst = List.range l.length := by
  rw [List.enum, enumFrom_map_fst, List.range_eq_range']

/-- Generic fold-preservation of an invariant. -/
theorem foldl_preserve {α σ : Type} (Inv : σ → Prop) (f : σ → α → σ) :
    ∀ (l : List α), (∀ s a, a ∈ l → Inv s → Inv (f s a)) →
      ∀ s, Inv s → Inv (l.foldl f s) := by
  intro l
  induction l with
  | nil => intro _ s hs; exact hs
  | cons hd tl ih =>
    intro h s hs
    rw [List.foldl_cons]
    exact ih (fun s' a ha => h s' a (List.mem_cons_of_mem hd ha))
      (f s hd) (h s hd (List.mem_cons_self hd tl) hs)

/-- What phase 1 can do at one left record. -/
theorem phase1Step_shape (tz : ℤ) (csv : List InvoiceRecord) (s : MState)
    (ie : ℕ × InvoiceRecord) :
    (exactLookup csv (createRecordKey ie.2.cifEmitent ie.2.nrFactur) = none ∧
      phase1Step tz csv s ie = s) ∨
    (∃ j c, exactLookup csv (createRecordKey ie.2.cifEmitent ie.2.nrFactur) =
        some (j, c) ∧ (j, c) ∈ csv.enum ∧
      phase1Step tz csv s ie = classifyPush
        { s with pe := insert ie.1 s.pe, pc := insert j s.pc }
        ⟨ie.1, j, ie.2, c, findDifferences tz ie.2 c, .exact⟩) := by
  cases h : exactLookup csv (createRecordKey ie.2.cifEmitent ie.2.nrFactur) with
  | none =>
    refine Or.inl ⟨rfl, ?_⟩
    simp only [phase1Step]
    rw [h]
  | some p =>
    obtain ⟨j, c⟩ := p
    refine Or.inr ⟨j, c, rfl, (exactLookup_key csv _ j c h).2, ?_⟩
    simp only [phase1Step]
    rw [h]

/-- What phase 2 can do at one left record: nothing, or consume a fresh
pair of positions via `classifyPush`. -/
theorem phase2Step_shape (tz : ℤ) (csv : List InvoiceRecord) (s : MState)
    (ie : ℕ × InvoiceRecord) :
    phase2Step tz csv s ie = s ∨
    (ie.1 ∉ s.pe ∧ ∃ j c, (j, c) ∈ csv.enum ∧ j ∉ s.pc ∧
      phase2Step tz csv s ie = classifyPush
        { s with pe := insert ie.1 s.pe, pc := insert j s.pc }
        ⟨ie.1, j, ie.2, c, findDifferences tz ie.2 c, .invoiceOnly⟩) := by
  by_cases hpe : ie.1 ∈ s.pe
  · left
    simp only [phase2Step]
    rw [if_pos hpe]
  · obtain ⟨f1, _, _, _⟩ := bcStep_fold tz s.pc ie.2
      (invoiceCandidates csv (normalizeInvoiceNumber ie.2.nrFactur))
      (none, -1) (by simp) (by simp)
    cases hro : (bestCandidate tz s.pc ie.2
        (invoiceCandidates csv (normalizeInvoiceNumber ie.2.nrFactur))).1 with
    | none =>
      left
      simp only [phase2Step]
      rw [if_neg hpe, hro]
    | some p =>
      obtain ⟨j, c⟩ := p
      have hro' : ((invoiceCandidates csv
          (normalizeInvoiceNumber ie.2.nrFactur)).foldl
          (bcStep tz s.pc ie.2) (none, -1)).1 = some (j, c) := hro
      obtain ⟨hm, hjpc, _⟩ := f1 (j, c) hro'
      have hmc : (j, c) ∈ invoiceCandidates csv
          (normalizeInvoiceNumber ie.2.nrFactur) := by
        rcases hm with h' | h'
        · exact h'
        · simp at h'
      have henum : (j, c) ∈ csv.enum :=
        (List.mem_filter.mp hmc).1
      by_cases hthr : ratLt (Rat.divInt 1 2) (bestCandidate tz s.pc ie.2
          (invoiceCandidates csv (normalizeInvoiceNumber ie.2.nrFactur))).2 =
          true
      · right
        refine ⟨hpe, j, c, henum, hjpc, ?_⟩
        simp only [phase2Step]
        rw [if_neg hpe, hro]
        dsimp only
        rw [if_pos hthr]
      · left
        simp only [phase2Step]
        rw [if_neg hpe, hro]
        dsimp only
        rw [if_neg hthr]

/-- The classification invariant of the three matched buckets. -/
def ClassOK (s : MState) : Prop :=
  (∀ p ∈ s.perfect, p.differences = []) ∧
  (∀ p ∈ s.trans, isTransactionDifference p.differences = true) ∧
  (∀ p ∈ s.value, p.differences ≠ [] ∧
    isTransactionDifference p.differences = false)

theorem classifyPush_classOK (s : MState) (pair : MatchedRecord)
    (h : ClassOK s) : ClassOK (classifyPush s pair) := by
  obtain ⟨h1, h2, h3⟩ := h
  rw [classifyPush]
  split_ifs with he ht
  · refine ⟨fun p hp => ?_, h2, h3⟩
    rcases List.mem_append.mp hp with hp' | hp'
    · exact h1 p hp'
    · rw [List.mem_singleton.mp hp']
      exact List.isEmpty_iff.mp he
  · refine ⟨h1, fun p hp => ?_, h3⟩
    rcases List.mem_append.mp hp with hp' | hp'
    · exact h2 p hp'
    · rw [List.mem_singleton.mp hp']
      exact ht
  · refine ⟨h1, h2, fun p hp => ?_⟩
    rcases List.mem_append.mp hp with hp' | hp'
    · exact h3 p hp'
    · rw [List.mem_singleton.mp hp']
      constructor
      · intro hnil
        exact he (by rw [hnil]; rfl)
      · cases hb : isTransactionDifference pair.differences
        · rfl
        · exact absurd hb ht

/-- The membership / well-formedness invariant: every pair in a bucket
comes from an enumerated input position on each side and carries
exactly the computed difference list. -/
def MemOK (tz : ℤ) (excel csv : List InvoiceRecord) (s : MState) : Prop :=
  ∀ p ∈ pairsOf s, (p.excelIdx, p.excelRecord) ∈ excel.enum ∧
    (p.csvIdx, p.csvRecord) ∈ csv.enum ∧
    p.differences = findDifferences tz p.excelRecord p.csvRecord

theorem classifyPush_memOK (tz : ℤ) (excel csv : List InvoiceRecord)
    (s : MState) (pe' pc' : Finset ℕ) (pair : MatchedRecord)
    (hm : MemOK tz excel csv s)
    (hex : (pair.excelIdx, pair.excelRecord) ∈ excel.enum)
    (hcs : (pair.csvIdx, pair.csvRecord) ∈ csv.enum)
    (hd : pair.differences = findDifferences tz pair.excelRecord
      pair.csvRecord) :
    MemOK tz excel csv (classifyPush { s with pe := pe', pc := pc' } pair) := by
  intro p hp
  rcases (classifyPush_mem _ pair p).mp hp with hp' | rfl
  · exact hm p hp'
  · exact ⟨hex, hcs, hd⟩

/-- Phase-1 fold preserves the left-count identity (every processed
index is fresh, so each matched pair adds one fresh index to both the
pair multiset and the consumed set). -/
theorem phase1_left_fold (tz : ℤ) (csv : List InvoiceRecord) :
    ∀ (l : List (ℕ × InvoiceRecord)) (s : MState),
      (∀ p ∈ l, p.1 ∉ s.pe) → (l.map Prod.fst).Nodup →
      exIdxMs s = s.pe.val →
      exIdxMs (l.foldl (phase1Step tz csv) s) =
        (l.foldl (phase1Step tz csv) s).pe.val := by
  intro l
  induction l with
  | nil => intro s _ _ h; exact h
  | cons hd tl ih =>
    intro s hfresh hnodup hinv
    rw [List.foldl_cons]
    have hnodup' : (tl.map Prod.fst).Nodup := by
      rw [List.map_cons] at hnodup
      exact hnodup.of_cons
    rcases phase1Step_shape tz csv s hd with ⟨_, heq⟩ | ⟨j, c, _, _, heq⟩
    · rw [heq]
      exact ih s (fun p hp => hfresh p (List.mem_cons_of_mem _ hp))
        hnodup' hinv
    · rw [heq]
      have hhd : hd.1 ∉ s.pe := hfresh hd (List.mem_cons_self _ _)
      apply ih
      · intro p hp
        rw [classifyPush_pe]
        intro hmem
        rcases Finset.mem_insert.mp hmem with h' | h'
        · rw [List.map_cons] at hnodup
          exact (List.nodup_cons.mp hnodup).1 (h' ▸ List.mem_map_of_mem _ hp)
        · exact hfresh p (List.mem_cons_of_mem _ hp) h'
      · exact hnodup'
      · rw [classifyPush_exIdx, classifyPush_pe]
        dsimp only
        rw [Finset.insert_val_of_not_mem hhd]
        rw [show exIdxMs { s with
          pe := insert hd.1 s.pe
          pc := insert j s.pc } = exIdxMs s from rfl, hinv]

/-- Phase-1 fold preserves the right-count identity, given that the
processed left records have pairwise distinct, not-yet-seen composite
keys (`K` is the set of keys already consumed before this fold). -/
theorem phase1_right_fold (tz : ℤ) (csv : List InvoiceRecord) :
    ∀ (l : List (ℕ × InvoiceRecord)) (s : MState) (K : Finset String),
      csIdxMs s = s.pc.val →
      (∀ j ∈ s.pc, ∃ k ∈ K, ∃ c, exactLookup csv k = some (j, c)) →
      (l.map (fun p => createRecordKey p.2.cifEmitent p.2.nrFactur)).Nodup →
      (∀ p ∈ l, createRecordKey p.2.cifEmitent p.2.nrFactur ∉ K) →
      csIdxMs (l.foldl (phase1Step tz csv) s) =
        (l.foldl (phase1Step tz csv) s).pc.val := by
  intro l
  induction l with
  | nil => intro s K h _ _ _; exact h
  | cons hd tl ih =>
    intro s K hinv htrace hnodup hfreshK
    rw [List.foldl_cons]
    rw [List.map_cons] at hnodup
    have hnodup' := (List.nodup_cons.mp hnodup).2
    have hhdK : createRecordKey hd.2.cifEmitent hd.2.nrFactur ∉ K :=
      hfreshK hd (List.mem_cons_self _ _)
    rcases phase1Step_shape tz csv s hd with ⟨hlook, heq⟩ | ⟨j, c, hlook, _, heq⟩
    · rw [heq]
      refine ih s (insert (createRecordKey hd.2.cifEmitent hd.2.nrFactur) K)
        hinv (fun j hj => ?_) hnodup' (fun p hp hk => ?_)
      · obtain ⟨k, hk, hc⟩ := htrace j hj
        exact ⟨k, Finset.mem_insert_of_mem hk, hc⟩
      · rcases Finset.mem_insert.mp hk with h' | h'
        · exact (List.nodup_cons.mp hnodup).1 (h' ▸ List.mem_map_of_mem _ hp)
        · exact hfreshK p (List.mem_cons_of_mem _ hp) h'
    · rw [heq]
      have hjfresh : j ∉ s.pc := by
        intro hj
        obtain ⟨k, hkK, ck, hck⟩ := htrace j hj
        exact hhdK ((exactLookup_det csv _ k j c ck hlook hck) ▸ hkK)
      refine ih _ (insert (createRecordKey hd.2.cifEmitent hd.2.nrFactur) K)
        ?_ (fun j' hj' => ?_) hnodup' (fun p hp hk => ?_)
      · rw [classifyPush_csIdx, classifyPush_pc]
        dsimp only
        rw [Finset.insert_val_of_not_mem hjfresh]
        rw [show csIdxMs { s with
          pe := insert hd.1 s.pe
          pc := insert j s.pc } = csIdxMs s from rfl, hinv]
      · rw [classifyPush_pc] at hj'
        rcases Finset.mem_insert.mp hj' with rfl | hj''
        · exact ⟨createRecordKey hd.2.cifEmitent hd.2.nrFactur,
            Finset.mem_insert_self _ _, c, hlook⟩
        · obtain ⟨k, hkK, hc⟩ := htrace j' hj''
          exact ⟨k, Finset.mem_insert_of_mem hkK, hc⟩
      · rcases Finset.mem_insert.mp hk with h' | h'
        · exact (List.nodup_cons.mp hnodup).1 (h' ▸ List.mem_map_of_mem _ hp)
        · exact hfreshK p (List.mem_cons_of_mem _ hp) h'

theorem phase2Step_exInv (tz : ℤ) (csv : List InvoiceRecord) (s : MState)
    (ie : ℕ × InvoiceRecord) (h : exIdxMs s = s.pe.val) :
    exIdxMs (phase2Step tz csv s ie) = (phase2Step tz csv s ie).pe.val := by
  rcases phase2Step_shape tz csv s ie with heq | ⟨hpe, j, c, _, _, heq⟩
  · rw [heq]
    exact h
  · rw [heq, classifyPush_exIdx, classifyPush_pe]
    dsimp only
    rw [Finset.insert_val_of_not_mem hpe]
    rw [show exIdxMs { s with
      pe := insert ie.1 s.pe
      pc := insert j s.pc } = exIdxMs s from rfl, h]

theorem phase2Step_csInv (tz : ℤ) (csv : List InvoiceRecord) (s : MState)
    (ie : ℕ × InvoiceRecord) (h : csIdxMs s = s.pc.val) :
    csIdxMs (phase2Step tz csv s ie) = (phase2Step tz csv s ie).pc.val := by
  rcases phase2Step_shape tz csv s ie with heq | ⟨_, j, c, _, hjpc, heq⟩
  · rw [heq]
    exact h
  · rw [heq, classifyPush_csIdx, classifyPush_pc]
    dsimp only
    rw [Finset.insert_val_of_not_mem hjpc]
    rw [show csIdxMs { s with
      pe := insert ie.1 s.pe
      pc := insert j s.pc } = csIdxMs s from rfl, h]

/-- Both phase steps keep the consumed-sets inside the input ranges. -/
theorem phaseStep_bounds (tz : ℤ) (csv : List InvoiceRecord) (ne : ℕ)
    (s : MState) (ie : ℕ × InvoiceRecord) (hie : ie.1 < ne)
    (h : s.pe ⊆ Finset.range ne ∧ s.pc ⊆ Finset.range csv.length)
    (step : MState) (hstep : step = phase1Step tz csv s ie ∨
      step = phase2Step tz csv s ie) :
    step.pe ⊆ Finset.range ne ∧ step.pc ⊆ Finset.range csv.length := by
  have hcase : step = s ∨ ∃ j c, (j, c) ∈ csv.enum ∧
      (step.pe = insert ie.1 s.pe ∧ step.pc = insert j s.pc) := by
    rcases hstep with rfl | rfl
    · rcases phase1Step_shape tz csv s ie with ⟨_, heq⟩ | ⟨j, c, _, henum, heq⟩
      · exact Or.inl heq
      · refine Or.inr ⟨j, c, henum, ?_⟩
        rw [heq, classifyPush_pe, classifyPush_pc]
        exact ⟨rfl, rfl⟩
    · rcases phase2Step_shape tz csv s ie with heq | ⟨_, j, c, henum, _, heq⟩
      · exact Or.inl heq
      · refine Or.inr ⟨j, c, henum, ?_⟩
        rw [heq, classifyPush_pe, classifyPush_pc]
        exact ⟨rfl, rfl⟩
  rcases hcase with rfl | ⟨j, c, henum, hpe, hpc⟩
  · exact h
  · have hj : j < csv.length := by
      have := enumFrom_fst_bounds csv 0 (j, c) henum
      omega
    rw [hpe, hpc]
    exact ⟨Finset.insert_subset_iff.mpr ⟨Finset.mem_range.mpr hie, h.1⟩,
      Finset.insert_subset_iff.mpr ⟨Finset.mem_range.mpr hj, h.2⟩⟩

theorem phase1Step_memOK (tz : ℤ) (excel csv : List InvoiceRecord)
    (s : MState) (ie : ℕ × InvoiceRecord) (hie : ie ∈ excel.enum)
    (h : MemOK tz excel csv s) : MemOK tz excel csv (phase1Step tz csv s ie) := by
  rcases phase1Step_shape tz csv s ie with ⟨_, heq⟩ | ⟨j, c, _, henum, heq⟩
  · rw [heq]
    exact h
  · rw [heq]
    refine classifyPush_memOK tz excel csv _ _ _ _ h ?_ henum rfl
    dsimp only
    rw [Prod.mk.eta]
    exact hie

theorem phase2Step_memOK (tz : ℤ) (excel csv : List InvoiceRecord)
    (s : MState) (ie : ℕ × InvoiceRecord) (hie : ie ∈ excel.enum)
    (h : MemOK tz excel csv s) : MemOK tz excel csv (phase2Step tz csv s ie) := by
  rcases phase2Step_shape tz csv s ie with heq | ⟨_, j, c, henum, _, heq⟩
  · rw [heq]
    exact h
  · rw [heq]
    refine classifyPush_memOK tz excel csv _ _ _ _ h ?_ henum rfl
    dsimp only
    rw [Prod.mk.eta]
    exact hie

theorem phase1Step_classOK (tz : ℤ) (csv : List InvoiceRecord) (s : MState)
    (ie : ℕ × InvoiceRecord) (h : ClassOK s) :
    ClassOK (phase1Step tz csv s ie) := by
  rcases phase1Step_shape tz csv s ie with ⟨_, heq⟩ | ⟨j, c, _, _, heq⟩
  · rw [heq]
    exact h
  · rw [heq]
    exact classifyPush_classOK _ _ h

theorem phase2Step_classOK (tz : ℤ) (csv : List InvoiceRecord) (s : MState)
    (ie : ℕ × InvoiceRecord) (h : ClassOK s) :
    ClassOK (phase2Step tz csv s ie) := by
  rcases phase2Step_shape tz csv s ie with heq | ⟨_, j, c, _, _, heq⟩
  · rw [heq]
    exact h
  · rw [heq]
    exact classifyPush_classOK _ _ h

theorem enumFrom_map_snd {α : Type} : ∀ (l : List α) (n : ℕ),
    (List.enumFrom n l).map Prod.snd = l := by
  intro l
  induction l with
  | nil => intro n; rfl
  | cons hd tl ih =>
    intro n
    have hcons : List.enumFrom n (hd :: tl) =
        (n, hd) :: List.enumFrom (n + 1) tl := rfl
    rw [hcons, List.map_cons, ih (n + 1)]

theorem map_fst_filter {α : Type} (q : ℕ → Bool) :
    ∀ l : List (ℕ × α),
      (l.filter (fun p => q p.1)).map Prod.fst = (l.map Prod.fst).filter q := by
  intro l
  induction l with
  | nil => rfl
  | cons hd tl ih =>
    rw [List.map_cons, List.filter_cons, List.filter_cons]
    cases hq : q hd.1 with
    | true =>
      rw [if_pos rfl, if_pos rfl, List.map_cons, ih]
    | false =>
      rw [if_neg (by simp), if_neg (by simp)]
      exact ih

/-- The key multiset identity behind all partition statements: a
consumed-set inside `range n`, plus the unconsumed part of `range n`,
is all of `range n`, every element exactly once. -/
theorem coe_val_add_filter (pe : Finset ℕ) (n : ℕ)
    (hsub : pe ⊆ Finset.range n) :
    pe.val + (↑((List.range n).filter (fun i => decide (i ∉ pe))) :
      Multiset ℕ) = ↑(List.range n) := by
  ext a
  rw [Multiset.count_add]
  have hnodupf : ((List.range n).filter (fun i => decide (i ∉ pe))).Nodup :=
    (List.nodup_range n).filter _
  by_cases hmem : a ∈ pe
  · have h1 : pe.val.count a = 1 :=
      Multiset.count_eq_one_of_mem pe.nodup hmem
    have h2 : (↑((List.range n).filter (fun i => decide (i ∉ pe))) :
        Multiset ℕ).count a = 0 := by
      rw [Multiset.count_eq_zero, Multiset.mem_coe]
      intro hin
      have := List.of_mem_filter hin
      simp at this
      exact this hmem
    have h3 : (↑(List.range n) : Multiset ℕ).count a = 1 := by
      refine Multiset.count_eq_one_of_mem (Multiset.coe_nodup.mpr
        (List.nodup_range n)) ?_
      rw [Multiset.mem_coe, List.mem_range]
      exact Finset.mem_range.mp (hsub hmem)
    rw [h1, h2, h3]
  · have h1 : pe.val.count a = 0 := by
      rw [Multiset.count_eq_zero]
      exact hmem
    by_cases hlt : a < n
    · have h2 : (↑((List.range n).filter (fun i => decide (i ∉ pe))) :
          Multiset ℕ).count a = 1 := by
        refine Multiset.count_eq_one_of_mem (Multiset.coe_nodup.mpr hnodupf) ?_
        rw [Multiset.mem_coe, List.mem_filter]
        exact ⟨List.mem_range.mpr hlt, by simpa using hmem⟩
      have h3 : (↑(List.range n) : Multiset ℕ).count a = 1 := by
        refine Multiset.count_eq_one_of_mem (Multiset.coe_nodup.mpr
          (List.nodup_range n)) ?_
        rw [Multiset.mem_coe, List.mem_range]
        exact hlt
      rw [h1, h2, h3]
    · have h2 : (↑((List.range n).filter (fun i => decide (i ∉ pe))) :
          Multiset ℕ).count a = 0 := by
        rw [Multiset.count_eq_zero, Multiset.mem_coe]
        intro hin
        exact hlt (List.mem_range.mp (List.mem_of_mem_filter hin))
      have h3 : (↑(List.range n) : Multiset ℕ).count a = 0 := by
        rw [Multiset.count_eq_zero, Multiset.mem_coe, List.mem_range]
        exact hlt
      rw [h1, h2, h3]

def matchedPairs (r : ComparisonResult) : List MatchedRecord :=
  r.perfectMatches ++ r.transactionDifferences ++ r.valueDifferences

/-- The state after phase 1 of `compareRecords`. -/
def phase1State (tz : ℤ) (excel csv : List InvoiceRecord) : MState :=
  excel.enum.foldl (phase1Step tz csv) MState.init

/-- The state after phase 2 of `compareRecords`. -/
def phase2State (tz : ℤ) (excel csv : List InvoiceRecord) : MState :=
  excel.enum.foldl (phase2Step tz csv) (phase1State tz excel csv)

theorem compareRecords_eq (tz : ℤ) (excel csv : List InvoiceRecord) :
    compareRecords tz excel csv =
      { missingFromCSV :=
          excel.enum.filter (fun p => p.1 ∉ (phase2State tz excel csv).pe),
        missingFromExcel :=
          csv.enum.filter (fun p => p.1 ∉ (phase2State tz excel csv).pc),
        valueDifferences := (phase2State tz excel csv).value,
        transactionDifferences := (phase2State tz excel csv).trans,
        perfectMatches := (phase2State tz excel csv).perfect } := rfl

theorem enum_map_comp_snd {α β : Type} (f : α → β) (l : List α) :
    l.enum.map (fun p => f p.2) = l.map f := by
  rw [show (fun p : ℕ × α => f p.2) = f ∘ Prod.snd from rfl, ← List.map_map,
    List.enum, enumFrom_map_snd]

theorem phase2State_exInv (tz : ℤ) (excel csv : List InvoiceRecord) :
    exIdxMs (phase2State tz excel csv) = (phase2State tz excel csv).pe.val := by
  rw [phase2State]
  refine foldl_preserve (fun s => exIdxMs s = s.pe.val) (phase2Step tz csv)
    excel.enum (fun s a _ h => phase2Step_exInv tz csv s a h) _ ?_
  rw [phase1State]
  refine phase1_left_fold tz csv excel.enum MState.init ?_ ?_ rfl
  · intro p _
    simp [MState.init]
  · rw [enum_map_fst_range]
    exact List.nodup_range _

theorem phase2State_csInv (tz : ℤ) (excel csv : List InvoiceRecord)
    (hkeys : (excel.map
      (fun r => createRecordKey r.cifEmitent r.nrFactur)).Nodup) :
    csIdxMs (phase2State tz excel csv) = (phase2State tz excel csv).pc.val := by
  rw [phase2State]
  refine foldl_preserve (fun s => csIdxMs s = s.pc.val) (phase2Step tz csv)
    excel.enum (fun s a _ h => phase2Step_csInv tz csv s a h) _ ?_
  rw [phase1State]
  refine phase1_right_fold tz csv excel.enum MState.init ∅ rfl ?_ ?_ ?_
  · intro j hj
    simp [MState.init] at hj
  · have heq : excel.enum.map
        (fun p => createRecordKey p.2.cifEmitent p.2.nrFactur) =
        excel.map (fun r => createRecordKey r.cifEmitent r.nrFactur) :=
      enum_map_comp_snd (fun r => createRecordKey r.cifEmitent r.nrFactur)
        excel
    rw [heq]
    exact hkeys
  · intro p _
    simp

theorem phase2State_bounds (tz : ℤ) (excel csv : List InvoiceRecord) :
    (phase2State tz excel csv).pe ⊆ Finset.range excel.length ∧
    (phase2State tz excel csv).pc ⊆ Finset.range csv.length := by
  rw [phase2State]
  refine foldl_preserve
    (fun s => s.pe ⊆ Finset.range excel.length ∧
      s.pc ⊆ Finset.range csv.length) (phase2Step tz csv) excel.enum
    (fun s a ha h => ?_) _ ?_
  · exact phaseStep_bounds tz csv excel.length s a
      (by have := enumFrom_fst_bounds excel 0 a ha; omega) h _ (Or.inr rfl)
  · rw [phase1State]
    refine foldl_preserve
      (fun s => s.pe ⊆ Finset.range excel.length ∧
        s.pc ⊆ Finset.range csv.length) (phase1Step tz csv) excel.enum
      (fun s a ha h => ?_) _ ?_
    · exact phaseStep_bounds tz csv excel.length s a
        (by have := enumFrom_fst_bounds excel 0 a ha; omega) h _ (Or.inl rfl)
    · simp [MState.init]

theorem phase2State_memOK (tz : ℤ) (excel csv : List InvoiceRecord) :
    MemOK tz excel csv (phase2State tz excel csv) := by
  rw [phase2State]
  refine foldl_preserve (MemOK tz excel csv) (phase2Step tz csv) excel.enum
    (fun s a ha h => phase2Step_memOK tz excel csv s a ha h) _ ?_
  rw [phase1State]
  refine foldl_preserve (MemOK tz excel csv) (phase1Step tz csv) excel.enum
    (fun s a ha h => phase1Step_memOK tz excel csv s a ha h) _ ?_
  intro p hp
  simp [MState.init, pairsOf] at hp

theorem phase2State_classOK (tz : ℤ) (excel csv : List InvoiceRecord) :
    ClassOK (phase2State tz excel csv) := by
  rw [phase2State]
  refine foldl_preserve ClassOK (phase2Step tz csv) excel.enum
    (fun s a _ h => phase2Step_classOK tz csv s a h) _ ?_
  rw [phase1State]
  refine foldl_preserve ClassOK (phase1Step tz csv) excel.enum
    (fun s a _ h => phase1Step_classOK tz csv s a h) _ ?_
  refine ⟨?_, ?_, ?_⟩ <;> intro p hp <;> simp [MState.init] at hp

/-- What one generic greedy step can do. -/
theorem genericStep_shape (mappings : List ColumnMapping) (csv : List GenRow)
    (s : Finset ℕ × List GenericMatch × List ℕ) (ie : ℕ × GenRow) :
    (genericStep mappings csv s ie = (s.1, s.2.1, s.2.2 ++ [ie.1])) ∨
    (∃ b, findBestGeneric mappings s.1 ie.2 csv = some b ∧
      b.csvIndex ∉ s.1 ∧ b.csvIndex < csv.length ∧
      genericStep mappings csv s ie =
        (insert b.csvIndex s.1,
         s.2.1 ++ [⟨ie.1, b.csvIndex, b.differences⟩], s.2.2)) := by
  cases hro : findBestGeneric mappings s.1 ie.2 csv with
  | none =>
    left
    simp only [genericStep]
    rw [hro]
  | some b =>
    right
    obtain ⟨f1, _, _, _⟩ := fbgStep_fold mappings s.1 ie.2 csv 0 none (by simp)
    obtain ⟨hm, hbu, _, _, _⟩ := f1 b hro
    have hmem : (b.csvIndex, b.csvRecord) ∈ List.enumFrom 0 csv := by
      rcases hm with h' | h'
      · exact h'
      · simp at h'
    have hlt : b.csvIndex < csv.length := by
      have := enumFrom_fst_bounds csv 0 _ hmem
      omega
    refine ⟨b, rfl, hbu, hlt, ?_⟩
    simp only [genericStep]
    rw [hro]

/-- Generic greedy pass, left side: every processed left row lands in
exactly one of `matches` / `onlyInExcel`, exactly once. -/
theorem generic_left_fold (mappings : List ColumnMapping) (csv : List GenRow) :
    ∀ (l : List (ℕ × GenRow)) (s : Finset ℕ × List GenericMatch × List ℕ),
      (↑(((l.foldl (genericStep mappings csv) s).2.1).map (·.rowIndex)) +
        ↑((l.foldl (genericStep mappings csv) s).2.2) : Multiset ℕ) =
      (↑(s.2.1.map (·.rowIndex)) + ↑s.2.2 : Multiset ℕ) +
        ↑(l.map Prod.fst) := by
  intro l
  induction l with
  | nil =>
    intro s
    simp
  | cons hd tl ih =>
    intro s
    rw [List.foldl_cons, List.map_cons]
    rcases genericStep_shape mappings csv s hd with heq | ⟨b, _, _, _, heq⟩
    · rw [heq, ih]
      dsimp only
      rw [show ((s.2.2 ++ [hd.1] : List ℕ) : Multiset ℕ) =
        ↑s.2.2 + ↑([hd.1] : List ℕ) from rfl]
      rw [show ((hd.1 :: tl.map Prod.fst : List ℕ) : Multiset ℕ) =
        ↑([hd.1] : List ℕ) + ↑(tl.map Prod.fst) from rfl]
      abel
    · rw [heq, ih]
      dsimp only
      have hx : ((s.2.1 ++
          [(⟨hd.1, b.csvIndex, b.differences⟩ : GenericMatch)]).map
            (fun x => x.rowIndex)) =
          s.2.1.map (fun x => x.rowIndex) ++ [hd.1] := by
        simp
      rw [hx]
      rw [show ((s.2.1.map (fun x => x.rowIndex) ++ [hd.1] : List ℕ) :
          Multiset ℕ) =
        ↑(s.2.1.map (fun x => x.rowIndex)) + ↑([hd.1] : List ℕ) from rfl]
      rw [show ((hd.1 :: tl.map Prod.fst : List ℕ) : Multiset ℕ) =
        ↑([hd.1] : List ℕ) + ↑(tl.map Prod.fst) from rfl]
      abel

/-- Generic greedy step preserves the right-side consumption identity
and bound. -/
theorem genericStep_csInv (mappings : List ColumnMapping) (csv : List GenRow)
    (s : Finset ℕ × List GenericMatch × List ℕ) (ie : ℕ × GenRow)
    (h : (↑(s.2.1.map (·.csvRowIndex)) : Multiset ℕ) = s.1.val ∧
      s.1 ⊆ Finset.range csv.length) :
    (↑(((genericStep mappings csv s ie).2.1).map (·.csvRowIndex)) :
      Multiset ℕ) = (genericStep mappings csv s ie).1.val ∧
    (genericStep mappings csv s ie).1 ⊆ Finset.range csv.length := by
  rcases genericStep_shape mappings csv s ie with heq | ⟨b, _, hbu, hblt, heq⟩
  · rw [heq]
    exact h
  · rw [heq]
    dsimp only
    constructor
    · have hx : ((s.2.1 ++
          [(⟨ie.1, b.csvIndex, b.differences⟩ : GenericMatch)]).map
            (fun x => x.csvRowIndex)) =
          s.2.1.map (fun x => x.csvRowIndex) ++ [b.csvIndex] := by
        simp
      rw [hx]
      rw [show ((s.2.1.map (fun x => x.csvRowIndex) ++ [b.csvIndex] :
          List ℕ) : Multiset ℕ) =
        ↑(s.2.1.map (fun x => x.csvRowIndex)) + ↑([b.csvIndex] : List ℕ)
        from rfl]
      rw [Finset.insert_val_of_not_mem hbu, h.1]
      rw [show (b.csvIndex ::ₘ s.1.val) = ↑([b.csvIndex] : List ℕ) + s.1.val
        from rfl]
      exact add_comm _ _
    · exact Finset.insert_subset_iff.mpr ⟨Finset.mem_range.mpr hblt, h.2⟩

/-- The fold state of `performComparison` (nonempty-mapping branch). -/
def genericState (mappings : List ColumnMapping) (excel csv : List GenRow) :
    Finset ℕ × List GenericMatch × List ℕ :=
  excel.enum.foldl (genericStep mappings csv) (∅, [], [])

theorem performComparison_eq (mappings : List ColumnMapping)
    (hm : mappings ≠ []) (excel csv : List GenRow) :
    performComparison mappings excel csv =
      { matchesList := (genericState mappings excel csv).2.1,
        onlyInExcel := (genericState mappings excel csv).2.2,
        onlyInCsv := (csv.enum.filter
          (fun p => p.1 ∉ (genericState mappings excel csv).1)).map
            Prod.fst } := by
  cases mappings with
  | nil => exact absurd rfl hm
  | cons m ms => rfl

/-- Adding the multisets and taking cardinalities gives the counting form
of a partition identity. -/
theorem ms_card_eq {A B : List ℕ} {n : ℕ}
    (h : (↑A + ↑B : Multiset ℕ) = ↑(List.range n)) :
    A.length + B.length = n := by
  have hc := congrArg Multiset.card h
  simpa using hc

/-- Fixed-schema mode, left side: every Excel index lands in exactly one
of matched / missingFromCSV, exactly once. -/
theorem fixed_left_partition (tz : ℤ) (excel csv : List InvoiceRecord) :
    (↑((matchedPairs (compareRecords tz excel csv)).map (·.excelIdx)) +
      ↑((compareRecords tz excel csv).missingFromCSV.map Prod.fst) :
      Multiset ℕ) = ↑(List.range excel.length) := by
  have hA : (matchedPairs (compareRecords tz excel csv)).map
      (fun p => p.excelIdx) =
      (pairsOf (phase2State tz excel csv)).map (fun p => p.excelIdx) := rfl
  have hB : (compareRecords tz excel csv).missingFromCSV =
      excel.enum.filter
        (fun p => decide (p.1 ∉ (phase2State tz excel csv).pe)) := rfl
  rw [hA, hB]
  have hq : ((excel.enum.filter
      (fun p => decide (p.1 ∉ (phase2State tz excel csv).pe))).map
        Prod.fst) =
      (List.range excel.length).filter
        (fun i => decide (i ∉ (phase2State tz excel csv).pe)) := by
    rw [← enum_map_fst_range]
    exact map_fst_filter
      (fun i => decide (i ∉ (phase2State tz excel csv).pe)) excel.enum
  rw [hq]
  rw [show (↑((pairsOf (phase2State tz excel csv)).map
      (fun p => p.excelIdx)) : Multiset ℕ) =
      exIdxMs (phase2State tz excel csv) from rfl]
  rw [phase2State_exInv]
  exact coe_val_add_filter _ excel.length (phase2State_bounds tz excel csv).1

/-- Fixed-schema mode, right side: under distinct composite keys on the
left, every CSV index lands in exactly one of matched / missingFromExcel,
exactly once. -/
theorem fixed_right_partition (tz : ℤ) (excel csv : List InvoiceRecord)
    (hkeys : (excel.map
      (fun r => createRecordKey r.cifEmitent r.nrFactur)).Nodup) :
    (↑((matchedPairs (compareRecords tz excel csv)).map (·.csvIdx)) +
      ↑((compareRecords tz excel csv).missingFromExcel.map Prod.fst) :
      Multiset ℕ) = ↑(List.range csv.length) := by
  have hA : (matchedPairs (compareRecords tz excel csv)).map
      (fun p => p.csvIdx) =
      (pairsOf (phase2State tz excel csv)).map (fun p => p.csvIdx) := rfl
  have hB : (compareRecords tz excel csv).missingFromExcel =
      csv.enum.filter
        (fun p => decide (p.1 ∉ (phase2State tz excel csv).pc)) := rfl
  rw [hA, hB]
  have hq : ((csv.enum.filter
      (fun p => decide (p.1 ∉ (phase2State tz excel csv).pc))).map
        Prod.fst) =
      (List.range csv.length).filter
        (fun i => decide (i ∉ (phase2State tz excel csv).pc)) := by
    rw [← enum_map_fst_range]
    exact map_fst_filter
      (fun i => decide (i ∉ (phase2State tz excel csv).pc)) csv.enum
  rw [hq]
  rw [show (↑((pairsOf (phase2State tz excel csv)).map
      (fun p => p.csvIdx)) : Multiset ℕ) =
      csIdxMs (phase2State tz excel csv) from rfl]
  rw [phase2State_csInv tz excel csv hkeys]
  exact coe_val_add_filter _ csv.length (phase2State_bounds tz excel csv).2

/-- Generic mode, left side partition, for a nonempty mapping. -/
theorem generic_left_partition (mappings : List ColumnMapping)
    (hm : mappings ≠ []) (excel csv : List GenRow) :
    (↑((performComparison mappings excel csv).matchesList.map
        (·.rowIndex)) +
      ↑((performComparison mappings excel csv).onlyInExcel) :
      Multiset ℕ) = ↑(List.range excel.length) := by
  rw [performComparison_eq mappings hm excel csv]
  dsimp only
  rw [show genericState mappings excel csv =
      excel.enum.foldl (genericStep mappings csv) (∅, [], []) from rfl]
  rw [generic_left_fold mappings csv excel.enum (∅, [], [])]
  simp [enum_map_fst_range]

/-- Generic mode, right side partition, for a nonempty mapping. -/
theorem generic_right_partition (mappings : List ColumnMapping)
    (hm : mappings ≠ []) (excel csv : List GenRow) :
    (↑((performComparison mappings excel csv).matchesList.map
        (·.csvRowIndex)) +
      ↑((performComparison mappings excel csv).onlyInCsv) :
      Multiset ℕ) = ↑(List.range csv.length) := by
  rw [performComparison_eq mappings hm excel csv]
  dsimp only
  have hgs : genericState mappings excel csv =
      excel.enum.foldl (genericStep mappings csv) (∅, [], []) := rfl
  rw [hgs]
  have hinv := foldl_preserve
    (fun s : Finset ℕ × List GenericMatch × List ℕ =>
      (↑(s.2.1.map (·.csvRowIndex)) : Multiset ℕ) = s.1.val ∧
        s.1 ⊆ Finset.range csv.length)
    (genericStep mappings csv) excel.enum
    (fun s a _ h => genericStep_csInv mappings csv s a h) (∅, [], [])
    (by simp)
  obtain ⟨hml, hsub⟩ := hinv
  rw [hml]
  have hq : ((csv.enum.filter (fun p => decide (p.1 ∉
      (excel.enum.foldl (genericStep mappings csv) (∅, [], [])).1))).map
        Prod.fst) =
      (List.range csv.length).filter (fun i => decide (i ∉
        (excel.enum.foldl (genericStep mappings csv) (∅, [], [])).1)) := by
    rw [← enum_map_fst_range]
    exact map_fst_filter (fun i => decide (i ∉
      (excel.enum.foldl (genericStep mappings csv) (∅, [], [])).1)) csv.enum
  rw [hq]
  exact coe_val_add_filter _ csv.length hsub

def wC1e : InvoiceRecord := ⟨"F001", "2024-01-10", "ACME", "RO1", "19", "100"⟩

def wC1c : InvoiceRecord := ⟨"F001", "2024-01-10", "ACME", "RO1", "19", "100"⟩

def wC1m : ColumnMapping := ⟨"A", "X"⟩

def wC1ge : GenRow := [("A", "1")]

def wC1gc : GenRow := [("X", "1")]

/-- C1, counterexample: with two left records sharing one composite key,
phase 1 matches both against the same single CSV record (the code never
checks `processedCSV` there), so the right side is not partitioned: two
matched pairs plus zero right-only records against one right input, the
single CSV index 0 appearing twice. -/
theorem C1_counterexample :
    (matchedPairs (compareRecords 0 [wC1e, wC1e] [wC1c])).length +
      (compareRecords 0 [wC1e, wC1e] [wC1c]).missingFromExcel.length = 2 ∧
    ([wC1c] : List InvoiceRecord).length = 1 ∧
    (matchedPairs (compareRecords 0 [wC1e, wC1e] [wC1c])).map
      (·.csvIdx) = [0, 0] := by
  decide

/-- C1 (amended): the buckets partition the inputs — unconditionally for
the left side in both modes and the right side in generic mode, and for
the fixed-schema right side under distinct left composite keys; in
generic mode a nonempty column mapping is assumed (the empty-mapping
early return leaves every bucket empty). Each partition is stated as a
multiset identity (exactly one bucket, exactly once) with its counting
corollary. -/
theorem C1_amended :
    (∀ (tz : ℤ) (excel csv : List InvoiceRecord),
      (↑((matchedPairs (compareRecords tz excel csv)).map (·.excelIdx)) +
        ↑((compareRecords tz excel csv).missingFromCSV.map Prod.fst) :
        Multiset ℕ) = ↑(List.range excel.length) ∧
      (matchedPairs (compareRecords tz excel csv)).length +
        (compareRecords tz excel csv).missingFromCSV.length =
        excel.length) ∧
    (∀ (tz : ℤ) (excel csv : List InvoiceRecord),
      (excel.map (fun r => createRecordKey r.cifEmitent r.nrFactur)).Nodup →
      (↑((matchedPairs (compareRecords tz excel csv)).map (·.csvIdx)) +
        ↑((compareRecords tz excel csv).missingFromExcel.map Prod.fst) :
        Multiset ℕ) = ↑(List.range csv.length) ∧
      (matchedPairs (compareRecords tz excel csv)).length +
        (compareRecords tz excel csv).missingFromExcel.length =
        csv.length) ∧
    (∀ (mappings : List ColumnMapping) (excel csv : List GenRow),
      mappings ≠ [] →
      ((↑((performComparison mappings excel csv).matchesList.map
          (·.rowIndex)) +
        ↑((performComparison mappings excel csv).onlyInExcel) :
        Multiset ℕ) = ↑(List.range excel.length) ∧
       (↑((performComparison mappings excel csv).matchesList.map
          (·.csvRowIndex)) +
        ↑((performComparison mappings excel csv).onlyInCsv) :
        Multiset ℕ) = ↑(List.range csv.length))) := by
  refine ⟨fun tz excel csv => ?_, fun tz excel csv hkeys => ?_,
    fun mappings excel csv hm => ?_⟩
  · have h := fixed_left_partition tz excel csv
    refine ⟨h, ?_⟩
    have hc := ms_card_eq h
    simpa using hc
  · have h := fixed_right_partition tz excel csv hkeys
    refine ⟨h, ?_⟩
    have hc := ms_card_eq h
    simpa using hc
  · exact ⟨generic_left_partition mappings hm excel csv,
      generic_right_partition mappings hm excel csv⟩

/-- Witness for C1 at concrete inputs: one left and one right invoice
with matching key (distinct composite keys hold), and a one-mapping
generic run. -/
theorem C1_witness :
    (([wC1e].map (fun r => createRecordKey r.cifEmitent r.nrFactur)).Nodup ∧
      (↑((matchedPairs (compareRecords 0 [wC1e] [wC1c])).map (·.csvIdx)) +
        ↑((compareRecords 0 [wC1e] [wC1c]).missingFromExcel.map Prod.fst) :
        Multiset ℕ) = ↑(List.range 1) ∧
      (matchedPairs (compareRecords 0 [wC1e] [wC1c])).length +
        (compareRecords 0 [wC1e] [wC1c]).missingFromExcel.length = 1) ∧
    ([wC1m] ≠ ([] : List ColumnMapping) ∧
      (↑((performComparison [wC1m] [wC1ge] [wC1gc]).matchesList.map
          (·.rowIndex)) +
        ↑((performComparison [wC1m] [wC1ge] [wC1gc]).onlyInExcel) :
        Multiset ℕ) = ↑(List.range 1)) :=
  ⟨⟨by decide, C1_amended.2.1 0 [wC1e] [wC1c] (by decide)⟩,
   ⟨by simp, (C1_amended.2.2 [wC1m] [wC1ge] [wC1gc] (by simp)).1⟩⟩

def wC4e : InvoiceRecord := ⟨"F004", "cif:a", "ACME", "RO1", "19", "100"⟩

def wC4c : InvoiceRecord := ⟨"F004", "b", "ACME", "RO1", "19", "100"⟩

/-- C4, counterexample: a matched pair whose only difference is the
*date* field is nevertheless classified counterparty-only, because the
classifier merely greps each description for the substrings "cif:" /
"denumire:" and here the date *value* happens to contain "cif:". -/
theorem C4_counterexample :
    (compareRecords 0 [wC4e] [wC4c]).transactionDifferences.length = 1 ∧
    cifsMatch wC4e.cifEmitent wC4c.cifEmitent = true ∧
    stringsMatch wC4e.denumireEmitent wC4c.denumireEmitent = true ∧
    datesMatch 0 wC4e.dataEmitere wC4c.dataEmitere = false := by
  decide

/-- C4 (amended): every matched pair carries exactly its
`findDifferences` list; an empty list lands in `perfectMatches`; a
non-empty one lands in `transactionDifferences` exactly when every
description *contains* (lower-cased) the substring "cif:" or
"denumire:" — a textual test, not a per-field one — and otherwise in
`valueDifferences`. -/
theorem C4_amended (tz : ℤ) (excel csv : List InvoiceRecord)
    (p : MatchedRecord) :
    (p ∈ matchedPairs (compareRecords tz excel csv) →
      p.differences = findDifferences tz p.excelRecord p.csvRecord) ∧
    (p ∈ (compareRecords tz excel csv).perfectMatches →
      p.differences = []) ∧
    (p ∈ (compareRecords tz excel csv).transactionDifferences →
      p.differences ≠ [] ∧
      ∀ d ∈ p.differences, jsIncludes (jsToLower d) "cif:" = true ∨
        jsIncludes (jsToLower d) "denumire:" = true) ∧
    (p ∈ (compareRecords tz excel csv).valueDifferences →
      p.differences ≠ [] ∧
      ¬ (∀ d ∈ p.differences, jsIncludes (jsToLower d) "cif:" = true ∨
        jsIncludes (jsToLower d) "denumire:" = true)) := by
  obtain ⟨h1, h2, h3⟩ := phase2State_classOK tz excel csv
  have hmem := phase2State_memOK tz excel csv
  refine ⟨fun hp => ?_, fun hp => ?_, fun hp => ?_, fun hp => ?_⟩
  · have hp' : p ∈ pairsOf (phase2State tz excel csv) := hp
    exact (hmem p hp').2.2
  · exact h1 p hp
  · have ht := h2 p hp
    rw [isTransactionDifference] at ht
    simp only [Bool.and_eq_true, List.all_eq_true, decide_eq_true_eq,
      Bool.or_eq_true] at ht
    obtain ⟨hall, hlen⟩ := ht
    exact ⟨List.ne_nil_of_length_pos hlen, hall⟩
  · obtain ⟨hne, hf⟩ := h3 p hp
    refine ⟨hne, fun hall => ?_⟩
    have hlen : 0 < p.differences.length := List.length_pos.mpr hne
    have htrue : (p.differences.all
        (fun diff => jsIncludes (jsToLower diff) "cif:" ||
          jsIncludes (jsToLower diff) "denumire:") &&
        decide (p.differences.length > 0)) = true := by
      simp only [Bool.and_eq_true, List.all_eq_true, decide_eq_true_eq,
        Bool.or_eq_true]
      exact ⟨hall, hlen⟩
    rw [isTransactionDifference] at hf
    rw [htrue] at hf
    exact Bool.noConfusion hf

def wC4pair : MatchedRecord :=
  ⟨0, 0, wC4e, wC4c,
    ["Data emitere: Excel=\"cif:a\" vs ANAF=\"b\""], MatchType.exact⟩

/-- Witness for C4: the counterexample pair really sits in
`transactionDifferences`, and the amended classification holds of it. -/
theorem C4_witness :
    wC4pair ∈ (compareRecords 0 [wC4e] [wC4c]).transactionDifferences ∧
    (wC4pair.differences ≠ [] ∧
      ∀ d ∈ wC4pair.differences, jsIncludes (jsToLower d) "cif:" = true ∨
        jsIncludes (jsToLower d) "denumire:" = true) :=
  ⟨by decide, (C4_amended 0 [wC4e] [wC4c] wC4pair).2.2.1 (by decide)⟩

def wC9e : InvoiceRecord := ⟨"F009", "2024-02-01", "Beta", "RO9", "19", "250"⟩

def wC9c : InvoiceRecord := ⟨"F009", "2024-02-01", "Beta", "RO9", "19", "250"⟩

def wC9pair : MatchedRecord := ⟨0, 0, wC9e, wC9c, [], MatchType.exact⟩

/-- C9: the reconciliation is total and pure — both engines are total
functions in this embedding; on empty inputs each returns the empty,
well-formed result; every matched pair of any fixed-schema run refers to
actual input records at its recorded positions with exactly its computed
difference list; and unparsable numbers and dates degrade to the
fallback values `0` and the trimmed original string instead of
failing. -/
theorem C9_totality (tz : ℤ) (excel csv : List InvoiceRecord)
    (mappings : List ColumnMapping) (p : MatchedRecord) :
    compareRecords tz [] [] =
      { missingFromCSV := [], missingFromExcel := [],
        valueDifferences := [], transactionDifferences := [],
        perfectMatches := [] } ∧
    performComparison mappings [] [] =
      { matchesList := [], onlyInExcel := [], onlyInCsv := [] } ∧
    (p ∈ matchedPairs (compareRecords tz excel csv) →
      (p.excelIdx, p.excelRecord) ∈ excel.enum ∧
      (p.csvIdx, p.csvRecord) ∈ csv.enum ∧
      p.differences = findDifferences tz p.excelRecord p.csvRecord) ∧
    jsParseFloat "N/A" = none ∧
    normalizeNumber "N/A" = 0 ∧
    normalizeDate tz "not a date" = "not a date" := by
  refine ⟨rfl, ?_, ?_, rfl, rfl, rfl⟩
  · cases mappings with
    | nil => rfl
    | cons m ms => rfl
  · intro hp
    have hp' : p ∈ pairsOf (phase2State tz excel csv) := hp
    exact phase2State_memOK tz excel csv p hp'

/-- Witness for C9: a concrete perfect-match run, its pair traced back
to the inputs. -/
theorem C9_witness :
    wC9pair ∈ matchedPairs (compareRecords 0 [wC9e] [wC9c]) ∧
    ((wC9pair.excelIdx, wC9pair.excelRecord) ∈
        ([wC9e] : List InvoiceRecord).enum ∧
      (wC9pair.csvIdx, wC9pair.csvRecord) ∈
        ([wC9c] : List InvoiceRecord).enum ∧
      wC9pair.differences =
        findDifferences 0 wC9pair.excelRecord wC9pair.csvRecord) :=
  ⟨by decide, (C9_totality 0 [wC9e] [wC9c] [] wC9pair).2.2.1 (by decide)⟩

end Conta
